import Mathlib

/-!
# go-event-emitter: the listener registry and the event bus

A shallow embedding of `event.go`.

* A function value is represented by its code pointer (what
  `reflect.ValueOf(cb).Pointer()` returns), a natural number.
* A value of type `*EventCallable` is represented by the address of the record
  together with the two immutable fields stored there.  Two such values are the
  same pointer exactly when they are equal.
* `container/list` is modelled by `GoList`: a sequence of elements, each with
  its own identity, so that a cursor held by a loop can be followed while the
  list is mutated.
* Values of type `uint` (`MaxListener`, the counts) are natural numbers; a
  count is the length of a list and is only compared, never added to.
* The loop of `Iterate` runs a visitor that may change the list, so it is
  followed by cursor and carries fuel; `RemoveAllListeners` and `RawListeners`
  take the fuel as their first argument and return `none` when it runs out.
  The loops of `Remove`, `FindCallback` and `Call` change at most the element
  under the cursor and are structural recursions over the elements.
* Every public method of the bus holds the bus lock for its whole body, so the
  methods are atomic state transformers.  What a method starts with `go` is
  returned as a list of scheduled tasks, in program order.
-/

namespace GoEventEmitter

/-- Code pointer of a Go function value of type `EventCallback`. -/
abbrev EventCallback := Nat

/-- A value passed through `args ...interface{}`. -/
inductive Arg where
  | str (s : String)
  | fn (f : EventCallback)
  | int (i : Int)
  | bool (b : Bool)
  deriving DecidableEq, Repr

/-- The record `EventCallable`, seen through a pointer to it: `addr` is the
address of the record. -/
structure EventCallable where
  addr : Nat
  CallableFunc : EventCallback
  OnceFlag : Bool
  deriving DecidableEq, Repr

/-- What a `go` statement starts: a listener body applied to arguments, or an
emission on the bus. -/
inductive Task where
  | call (f : EventCallback) (args : List Arg)
  | emit (name : String) (args : List Arg)
  deriving DecidableEq, Repr

/-! ## container/list -/

/-- A `list.Element`: `id` is the identity of the element, `Value` what it
holds. -/
structure Element where
  id : Nat
  Value : EventCallable
  deriving DecidableEq, Repr

/-- A `list.List`.  `nextId` is the identity the next pushed element gets;
elements of one list are pairwise distinct objects. -/
structure GoList where
  elems : List Element
  nextId : Nat
  fresh : ∀ e ∈ elems, e.id < nextId
  distinct : (elems.map Element.id).Nodup

namespace GoList

/-- The zero value of `list.List`, an empty list. -/
def empty : GoList := ⟨[], 0, by simp, by simp⟩

/-- The values held, front to back. -/
def values (l : GoList) : List EventCallable := l.elems.map Element.Value

/-- Go: `l.Len()`. -/
def Len (l : GoList) : Nat := l.elems.length

/-- Go: `l.Front()`. -/
def Front (l : GoList) : Option Element := l.elems.head?

/-- The element after the one with identity `i`, if that one is in the
sequence and is not the last. -/
def nextIn : List Element → Nat → Option Element
  | [], _ => none
  | x :: rest, i => if x.id = i then rest.head? else nextIn rest i

/-- Go: `e.Next()`, for an element last known to be in `l`: `nil` when `e` has
been removed or is the last element. -/
def Next (l : GoList) (e : Element) : Option Element := nextIn l.elems e.id

/-- Go: `l.PushBack(v)`. -/
def PushBack (l : GoList) (v : EventCallable) : GoList where
  elems := l.elems ++ [⟨l.nextId, v⟩]
  nextId := l.nextId + 1
  fresh := by
    intro e he
    rcases List.mem_append.mp he with h | h
    · exact Nat.lt_succ_of_lt (l.fresh e h)
    · simp at h; subst h; simp
  distinct := by
    rw [List.map_append, List.nodup_append]
    refine ⟨l.distinct, by simp, ?_⟩
    intro a ha hb
    simp at hb
    obtain ⟨e, he, rfl⟩ := List.mem_map.mp ha
    have := l.fresh e he
    omega

/-- Go: `l.PushFront(v)`. -/
def PushFront (l : GoList) (v : EventCallable) : GoList where
  elems := ⟨l.nextId, v⟩ :: l.elems
  nextId := l.nextId + 1
  fresh := by
    intro e he
    rcases List.mem_cons.mp he with h | h
    · subst h; simp
    · exact Nat.lt_succ_of_lt (l.fresh e h)
  distinct := by
    rw [List.map_cons, List.nodup_cons]
    refine ⟨?_, l.distinct⟩
    intro ha
    obtain ⟨e, he, h⟩ := List.mem_map.mp ha
    have := l.fresh e he
    simp at h
    omega

/-- Go: `l.Remove(e)`: unlinks `e` when it is an element of `l`, otherwise
does nothing. -/
def Remove (l : GoList) (e : Element) : GoList where
  elems := l.elems.eraseP (fun x => x.id = e.id)
  nextId := l.nextId
  fresh := fun x hx => l.fresh x (List.mem_of_mem_eraseP hx)
  distinct := l.distinct.sublist ((List.eraseP_sublist _).map _)

instance : DecidableEq GoList := fun a b =>
  if h : a.elems = b.elems ∧ a.nextId = b.nextId then
    isTrue (by cases a; cases b; simp only at h; simp [h.1, h.2])
  else
    isFalse (by rintro rfl; exact h ⟨rfl, rfl⟩)

end GoList

/-! ## The listener registry -/

/-- The registry of one event name.  The embedded mutex is left out: every
method runs under the bus lock. -/
structure EventHandler where
  eventCount : Nat
  handlers : GoList
  deriving DecidableEq

namespace EventHandler

/-- Go: `new(EventHandler)`. -/
def new : EventHandler := ⟨0, GoList.empty⟩

/-- Go: `Append`. -/
def Append (handler : EventHandler) (callable : EventCallable) : EventHandler :=
  { handler with handlers := handler.handlers.PushBack callable }

/-- Go: `Prepend`. -/
def Prepend (handler : EventHandler) (callable : EventCallable) : EventHandler :=
  { handler with handlers := handler.handlers.PushFront callable }

/-- The loop of `Iterate`: `e` is the cursor, `next` is read from the registry
before the visitor runs, and the visitor may change the registry (first
component of the state) and whatever else it closes over (second component).
`none` when the fuel runs out before the cursor reaches `nil`. -/
def iterLoop {α : Type} (cb : EventCallable → EventHandler × α → EventHandler × α) :
    Nat → Option Element → EventHandler × α → Option (EventHandler × α)
  | _, none, s => some s
  | 0, some _, _ => none
  | fuel + 1, some e, s =>
      let next := s.1.handlers.Next e
      iterLoop cb fuel next (cb e.Value s)

/-- Go: `Iterate`. -/
def Iterate {α : Type} (cb : EventCallable → EventHandler × α → EventHandler × α)
    (fuel : Nat) (s : EventHandler × α) : Option (EventHandler × α) :=
  iterLoop cb fuel s.1.handlers.Front s

/-- The loop of `Remove` over the elements from the cursor on; nothing is
changed before the loop returns. -/
def removeLoop (callable : EventCallable) (l : GoList) : List Element → Bool × GoList
  | [] => (false, l)
  | e :: rest => if e.Value = callable then (true, l.Remove e) else removeLoop callable l rest

/-- Go: `Remove`. -/
def Remove (handler : EventHandler) (callable : EventCallable) : Bool × EventHandler :=
  let r := removeLoop callable handler.handlers handler.handlers.elems
  (r.1, { handler with handlers := r.2 })

/-- The loop of `FindCallback` over the elements from the cursor on. -/
def findLoop (cb : EventCallback) : List Element → Option EventCallable
  | [] => none
  | e :: rest => if e.Value.CallableFunc = cb then some e.Value else findLoop cb rest

/-- Go: `FindCallback`; `none` is `nil`. -/
def FindCallback (handler : EventHandler) (cb : EventCallback) : Option EventCallable :=
  findLoop cb handler.handlers.elems

/-- Go: `GetEventCount`. -/
def GetEventCount (handler : EventHandler) : Nat := handler.eventCount

/-- Go: `GetHandlersCount`. -/
def GetHandlersCount (handler : EventHandler) : Nat := handler.handlers.Len

/-- The loop of `Call` over the elements from the cursor on: the body starts
the listener and unlinks the current element when it is flagged once. -/
def callLoop (args : List Arg) : List Element → GoList → GoList × List Task
  | [], l => (l, [])
  | e :: rest, l =>
      let r := callLoop args rest (if e.Value.OnceFlag then l.Remove e else l)
      (r.1, Task.call e.Value.CallableFunc args :: r.2)

/-- Go: `Call`: the registry afterwards and the listener invocations started. -/
def Call (handler : EventHandler) (args : List Arg) : EventHandler × List Task :=
  let r := callLoop args handler.handlers.elems handler.handlers
  ({ handler with handlers := r.1 }, r.2)

/-- A visitor for `Iterate` that notes the callable it is called with and
removes it from the registry. -/
def removingVisitor (callable : EventCallable)
    (s : EventHandler × List EventCallable) : EventHandler × List EventCallable :=
  ((s.1.Remove callable).2, s.2 ++ [callable])

/-- A visitor for `Iterate` that notes the callable it is called with and
leaves the registry as it is. -/
def notingVisitor (callable : EventCallable)
    (s : EventHandler × List EventCallable) : EventHandler × List EventCallable :=
  (s.1, s.2 ++ [callable])

/-- A call of a method of the registry that a user of the registry can make,
apart from `Iterate`. -/
inductive Method where
  | Append (callable : EventCallable)
  | Prepend (callable : EventCallable)
  | Remove (callable : EventCallable)
  | FindCallback (cb : EventCallback)
  | Call (args : List Arg)
  deriving DecidableEq, Repr

/-- The registry after the call. -/
def Method.run : Method → EventHandler → EventHandler
  | .Append callable, handler => handler.Append callable
  | .Prepend callable, handler => handler.Prepend callable
  | .Remove callable, handler => (handler.Remove callable).2
  | .FindCallback _, handler => handler
  | .Call args, handler => (handler.Call args).1

/-- The registry after the calls, made one after the other. -/
def runMethods : List Method → EventHandler → EventHandler
  | [], handler => handler
  | m :: rest, handler => runMethods rest (m.run handler)

/-- A visitor for `Iterate` that makes method calls on the registry, chosen
from the callable it is called with and the registry as it is then. -/
def methodVisitor (v : EventCallable → EventHandler → List Method) (callable : EventCallable)
    (s : EventHandler × Unit) : EventHandler × Unit :=
  (runMethods (v callable s.1) s.1, ())

/-- The registries reachable from `new(EventHandler)` through Append, Prepend,
Remove, FindCallback, Call and Iterate, the visitor of Iterate making such
calls itself. -/
inductive RegistryReachable : EventHandler → Prop
  | init : RegistryReachable EventHandler.new
  | method {handler : EventHandler} (m : Method) :
      RegistryReachable handler → RegistryReachable (m.run handler)
  | iterate {handler : EventHandler} (v : EventCallable → EventHandler → List Method)
      (fuel : Nat) (s : EventHandler × Unit) :
      RegistryReachable handler → Iterate (methodVisitor v) fuel (handler, ()) = some s →
      RegistryReachable s.1

end EventHandler

/-! ## The event bus -/

/-- Go: `m[name]` on the map of registries: the registry and whether there is
one. -/
def mapGet : List (String × EventHandler) → String → Option EventHandler
  | [], _ => none
  | (k, v) :: rest, name => if k = name then some v else mapGet rest name

/-- Go: `m[name] = v`, also the effect of mutating the registry `m[name]`
points to. -/
def mapSet : List (String × EventHandler) → String → EventHandler → List (String × EventHandler)
  | [], name, v => [(name, v)]
  | (k, w) :: rest, name, v => if k = name then (k, v) :: rest else (k, w) :: mapSet rest name v

/-- The bus.  `nextAddr` is the address the next allocated `EventCallable`
gets. -/
structure EventEmitter where
  MaxListener : Nat
  handlers : List (String × EventHandler)
  nextAddr : Nat
  deriving DecidableEq

/-- What a method of the bus leaves behind: its return value, the bus
afterwards and the tasks it started with `go`. -/
structure Outcome (α : Type) where
  ret : α
  bus : EventEmitter
  sched : List Task

namespace EventEmitter

/-- Go: `NewEventEmitter`. -/
def NewEventEmitter (maxlistener : Nat) : EventEmitter :=
  { MaxListener := maxlistener, handlers := [], nextAddr := 0 }

/-- Go: `Emit`. -/
def Emit (emitter : EventEmitter) (name : String) (args : List Arg) : Outcome Unit :=
  match mapGet emitter.handlers name with
  | some handler =>
      let r := handler.Call args
      ⟨(), { emitter with handlers := mapSet emitter.handlers name r.1 }, r.2⟩
  | none => ⟨(), emitter, []⟩

/-- Go: `ListenerCount`. -/
def ListenerCount (emitter : EventEmitter) (name : String) : Nat :=
  match mapGet emitter.handlers name with
  | some handler => handler.GetHandlersCount
  | none => 0

/-- Go: `getOrCreateHandler`. -/
def getOrCreateHandler (emitter : EventEmitter) (name : String) : EventHandler × EventEmitter :=
  match mapGet emitter.handlers name with
  | some handler => (handler, emitter)
  | none =>
      (EventHandler.new,
        { emitter with handlers := mapSet emitter.handlers name EventHandler.new })

/-- Go: `addHandler`. -/
def addHandler (emitter : EventEmitter) (name : String) (cb : EventCallback)
    (once : Bool) (atEnd : Bool) : Outcome Bool :=
  let r := emitter.getOrCreateHandler name
  if r.1.GetHandlersCount ≥ r.2.MaxListener then
    ⟨false, r.2, []⟩
  else
    let callable : EventCallable := ⟨r.2.nextAddr, cb, once⟩
    let handler := if atEnd then r.1.Append callable else r.1.Prepend callable
    ⟨true,
      { r.2 with handlers := mapSet r.2.handlers name handler, nextAddr := r.2.nextAddr + 1 },
      [Task.emit "newListener" [Arg.str name, Arg.fn cb]]⟩

/-- Go: `On`. -/
def On (emitter : EventEmitter) (name : String) (cb : EventCallback) : Outcome Bool :=
  emitter.addHandler name cb false true

/-- Go: `AddListener`. -/
def AddListener (emitter : EventEmitter) (name : String) (cb : EventCallback) : Outcome Bool :=
  emitter.On name cb

/-- Go: `Once`. -/
def Once (emitter : EventEmitter) (name : String) (cb : EventCallback) : Outcome Bool :=
  emitter.addHandler name cb true true

/-- Go: `PrependListener`. -/
def PrependListener (emitter : EventEmitter) (name : String) (cb : EventCallback) :
    Outcome Bool :=
  emitter.addHandler name cb false false

/-- Go: `PrependOnceListener`. -/
def PrependOnceListener (emitter : EventEmitter) (name : String) (cb : EventCallback) :
    Outcome Bool :=
  emitter.addHandler name cb true false

/-- The visitor `RemoveAllListeners` passes to `Iterate`. -/
def removeAllVisitor (name : String) (callable : EventCallable)
    (s : EventHandler × List Task) : EventHandler × List Task :=
  let r := s.1.Remove callable
  if r.1 then
    (r.2, s.2 ++ [Task.emit "removeListener" [Arg.str name, Arg.fn callable.CallableFunc]])
  else
    (r.2, s.2)

/-- Go: `RemoveAllListeners`; `none` when `Iterate` runs out of fuel. -/
def RemoveAllListeners (fuel : Nat) (emitter : EventEmitter) (name : String) :
    Option (Outcome Unit) :=
  match mapGet emitter.handlers name with
  | some handler =>
      match EventHandler.Iterate (removeAllVisitor name) fuel (handler, []) with
      | some s => some ⟨(), { emitter with handlers := mapSet emitter.handlers name s.1 }, s.2⟩
      | none => none
  | none => some ⟨(), emitter, []⟩

/-- Go: `RemoveListener`. -/
def RemoveListener (emitter : EventEmitter) (name : String) (cb : EventCallback) :
    Outcome Bool :=
  match mapGet emitter.handlers name with
  | some handler =>
      match handler.FindCallback cb with
      | none => ⟨false, emitter, []⟩
      | some callable =>
          let r := handler.Remove callable
          ⟨r.1, { emitter with handlers := mapSet emitter.handlers name r.2 },
            if r.1 then [Task.emit "removeListener" [Arg.str name, Arg.fn callable.CallableFunc]]
            else []⟩
  | none => ⟨false, emitter, []⟩

/-- Go: `EventNames`, in the order the registries were created (Go leaves the
order open). -/
def EventNames (emitter : EventEmitter) : List String :=
  emitter.handlers.map Prod.fst

/-- The visitor `RawListeners` passes to `Iterate`. -/
def rawVisitor (callable : EventCallable)
    (s : EventHandler × List EventCallback) : EventHandler × List EventCallback :=
  (s.1, s.2 ++ [callable.CallableFunc])

/-- Go: `RawListeners`; `none` when `Iterate` runs out of fuel. -/
def RawListeners (fuel : Nat) (emitter : EventEmitter) (name : String) :
    Option (List EventCallback) :=
  match mapGet emitter.handlers name with
  | some handler => (EventHandler.Iterate rawVisitor fuel (handler, [])).map Prod.snd
  | none => some []

/-- The callables registered for `name`, front to back, with their flags; the
empty sequence when `name` has no registry. -/
def registered (emitter : EventEmitter) (name : String) : List EventCallable :=
  match mapGet emitter.handlers name with
  | some handler => handler.handlers.values
  | none => []

/-- The five subscription methods of the bus. -/
inductive Subscription where
  | On
  | AddListener
  | Once
  | PrependListener
  | PrependOnceListener
  deriving DecidableEq, Repr

/-- The call of a subscription method. -/
def Subscription.run : Subscription → EventEmitter → String → EventCallback → Outcome Bool
  | .On => EventEmitter.On
  | .AddListener => EventEmitter.AddListener
  | .Once => EventEmitter.Once
  | .PrependListener => EventEmitter.PrependListener
  | .PrependOnceListener => EventEmitter.PrependOnceListener

/-- Whether the method registers its callable with the once flag. -/
def Subscription.once : Subscription → Bool
  | .Once | .PrependOnceListener => true
  | _ => false

/-- Whether the method inserts at the back. -/
def Subscription.atEnd : Subscription → Bool
  | .PrependListener | .PrependOnceListener => false
  | _ => true

/-- The bus states reachable from `NewEventEmitter m` through calls of the
public methods, in any order and with any arguments.  The emissions a method
schedules and the bus calls a listener body makes are calls of `Emit` and of
the other methods, so they are covered. -/
inductive Reachable (m : Nat) : EventEmitter → Prop
  | init : Reachable m (NewEventEmitter m)
  | subscribe {emitter : EventEmitter} (k : Subscription) (name : String)
      (cb : EventCallback) :
      Reachable m emitter → Reachable m (k.run emitter name cb).bus
  | removeListener {emitter : EventEmitter} (name : String) (cb : EventCallback) :
      Reachable m emitter → Reachable m (emitter.RemoveListener name cb).bus
  | removeAllListeners {emitter : EventEmitter} (fuel : Nat) (name : String)
      (o : Outcome Unit) :
      Reachable m emitter → RemoveAllListeners fuel emitter name = some o →
      Reachable m o.bus
  | emit {emitter : EventEmitter} (name : String) (args : List Arg) :
      Reachable m emitter → Reachable m (emitter.Emit name args).bus

/-- The listeners of the test, `getIncrFunc(incrval, wg)`: the function value
with code pointer `incrval` adds `incrval` to the shared counter.  `runIncr`
runs the started listener invocations in the given order on the counter; an
emission among the tasks does not touch the counter. -/
def runIncr : List Task → Int → Int
  | [], counter => counter
  | Task.call f _ :: rest, counter => runIncr rest (counter + f)
  | Task.emit _ _ :: rest, counter => runIncr rest counter

/-- A call of a subscription method, of `RemoveListener` or of `Emit`. -/
inductive Request where
  | subscribe (k : Subscription) (name : String) (cb : EventCallback)
  | removeListener (name : String) (cb : EventCallback)
  | emit (name : String) (args : List Arg)
  deriving DecidableEq, Repr

/-- The bus after the call. -/
def Request.bus : Request → EventEmitter → EventEmitter
  | .subscribe k name cb, emitter => (k.run emitter name cb).bus
  | .removeListener name cb, emitter => (emitter.RemoveListener name cb).bus
  | .emit name args, emitter => (emitter.Emit name args).bus

/-- Whether the call is a subscription on `name` that returns true. -/
def Request.subscribes (name : String) : Request → EventEmitter → Bool
  | .subscribe k n cb, emitter => decide (n = name) && (k.run emitter n cb).ret
  | _, _ => false

/-- Whether the call is a `RemoveListener` on `name` that returns true. -/
def Request.removes (name : String) : Request → EventEmitter → Bool
  | .removeListener n cb, emitter => decide (n = name) && (emitter.RemoveListener n cb).ret
  | _, _ => false

/-- Whether the call is an `Emit` on `name`. -/
def Request.emitsOn (name : String) : Request → Bool
  | .emit n _ => decide (n = name)
  | _ => false

/-- The bus after the calls, made one after the other. -/
def runRequests : List Request → EventEmitter → EventEmitter
  | [], emitter => emitter
  | r :: rest, emitter => runRequests rest (r.bus emitter)

/-- The number of subscription calls on `name` that returned true, in the run
of the calls from `emitter`. -/
def subscribedCount (name : String) : List Request → EventEmitter → Nat
  | [], _ => 0
  | r :: rest, emitter =>
      (if r.subscribes name emitter then 1 else 0) + subscribedCount name rest (r.bus emitter)

/-- The number of `RemoveListener` calls on `name` that returned true, in the
run of the calls from `emitter`. -/
def removedCount (name : String) : List Request → EventEmitter → Nat
  | [], _ => 0
  | r :: rest, emitter =>
      (if r.removes name emitter then 1 else 0) + removedCount name rest (r.bus emitter)

/-- What a started task does on the bus when it runs.  An emission,
`go emitter.Emit(name, args...)`, is the call of `Emit` on the bus as it is
then; a listener invocation runs outside the bus. -/
def runTask : Task → EventEmitter → Outcome Unit
  | .emit name args, emitter => emitter.Emit name args
  | .call _ _, emitter => ⟨(), emitter, []⟩

end EventEmitter

/-! ## Lemmas: the map of registries -/

theorem mapGet_mapSet (m : List (String × EventHandler)) (k k2 : String) (v : EventHandler) :
    mapGet (mapSet m k v) k2 = if k = k2 then some v else mapGet m k2 := by
  induction m with
  | nil => simp [mapSet, mapGet]
  | cons p rest ih =>
    obtain ⟨a, w⟩ := p
    by_cases hak : a = k
    · subst hak
      by_cases h2 : a = k2 <;> simp [mapSet, mapGet, h2]
    · by_cases h2 : a = k2
      · subst h2
        have : ¬ k = a := fun h => hak h.symm
        simp [mapSet, mapGet, hak, this]
      · simp [mapSet, mapGet, hak, h2, ih]

theorem mapSet_of_mapGet (m : List (String × EventHandler)) (k : String) (v : EventHandler)
    (h : mapGet m k = some v) : mapSet m k v = m := by
  induction m with
  | nil => simp [mapGet] at h
  | cons p rest ih =>
    obtain ⟨a, w⟩ := p
    by_cases hak : a = k
    · simp [mapGet, hak] at h
      simp [mapSet, hak, h]
    · simp [mapGet, hak] at h
      simp [mapSet, hak, ih h]

theorem mapSet_names_of_some (m : List (String × EventHandler)) (k : String)
    (v w : EventHandler) (h : mapGet m k = some w) :
    (mapSet m k v).map Prod.fst = m.map Prod.fst := by
  induction m with
  | nil => simp [mapGet] at h
  | cons p rest ih =>
    obtain ⟨a, u⟩ := p
    by_cases hak : a = k
    · simp [mapSet, hak]
    · simp [mapGet, hak] at h
      simp [mapSet, hak, ih h]

theorem mapSet_names_of_none (m : List (String × EventHandler)) (k : String)
    (v : EventHandler) (h : mapGet m k = none) :
    (mapSet m k v).map Prod.fst = m.map Prod.fst ++ [k] := by
  induction m with
  | nil => simp [mapSet]
  | cons p rest ih =>
    obtain ⟨a, u⟩ := p
    by_cases hak : a = k
    · simp [mapGet, hak] at h
    · simp [mapGet, hak] at h
      simp [mapSet, hak, ih h]

theorem mapGet_isSome_iff (m : List (String × EventHandler)) (k : String) :
    (mapGet m k).isSome ↔ k ∈ m.map Prod.fst := by
  induction m with
  | nil => simp [mapGet]
  | cons p rest ih =>
    obtain ⟨a, u⟩ := p
    by_cases hak : a = k
    · simp [mapGet, hak]
    · have : ¬ k = a := fun h => hak h.symm
      simp [mapGet, hak, this, ih]

/-! ## Lemmas: container/list -/

namespace GoList

@[simp] theorem values_empty : GoList.empty.values = [] := rfl

@[simp] theorem values_PushBack (l : GoList) (v : EventCallable) :
    (l.PushBack v).values = l.values ++ [v] := by
  simp [values, PushBack]

@[simp] theorem values_PushFront (l : GoList) (v : EventCallable) :
    (l.PushFront v).values = v :: l.values := by
  simp [values, PushFront]

theorem Len_eq (l : GoList) : l.Len = l.values.length := by
  simp [Len, values]

theorem ext_elems {a b : GoList} (h1 : a.elems = b.elems) (h2 : a.nextId = b.nextId) :
    a = b := by
  cases a; cases b; simp only at h1 h2; simp [h1, h2]

/-- In a sequence of pairwise distinct elements, unlinking the first element
that satisfies `p` by its identity removes exactly that element. -/
theorem eraseP_id_of_find (p : Element → Bool) :
    ∀ (es : List Element), (es.map Element.id).Nodup → ∀ e, es.find? p = some e →
      es.eraseP (fun x => x.id = e.id) = es.eraseP p := by
  intro es
  induction es with
  | nil => intro _ e h; simp at h
  | cons x rest ih =>
    intro hnd e h
    rw [List.map_cons, List.nodup_cons] at hnd
    by_cases hp : p x = true
    · rw [List.find?_cons_of_pos _ hp] at h
      cases h
      simp [hp]
    · rw [List.find?_cons_of_neg _ hp] at h
      have hmem : e ∈ rest := List.mem_of_find?_eq_some h
      have hne : ¬ x.id = e.id := by
        intro heq
        exact hnd.1 (heq ▸ List.mem_map_of_mem _ hmem)
      rw [List.eraseP_cons_of_neg (by simpa using hne), List.eraseP_cons_of_neg hp,
        ih hnd.2 e h]

/-- The element after the head of a suffix is the head of the rest of it. -/
theorem nextIn_append (pre rest : List Element) (e : Element)
    (h : ∀ x ∈ pre, x.id ≠ e.id) :
    nextIn (pre ++ e :: rest) e.id = rest.head? := by
  induction pre with
  | nil => simp [nextIn]
  | cons x pre ih =>
    have hx : ¬ x.id = e.id := h x (List.mem_cons_self _ _)
    simp only [List.cons_append, nextIn, hx, if_false]
    exact ih (fun y hy => h y (List.mem_cons_of_mem _ hy))

end GoList

/-! ## Lemmas: the registry -/

namespace EventHandler

theorem removeLoop_eq (callable : EventCallable) (l : GoList) (es : List Element) :
    removeLoop callable l es =
      match es.find? (fun e => decide (e.Value = callable)) with
      | some e => (true, l.Remove e)
      | none => (false, l) := by
  induction es with
  | nil => simp [removeLoop]
  | cons x rest ih =>
    by_cases hx : x.Value = callable
    · simp [removeLoop, hx]
    · simp [removeLoop, hx, ih]

theorem map_eraseP_value (callable : EventCallable) (es : List Element) :
    (es.eraseP (fun e => decide (e.Value = callable))).map Element.Value =
      (es.map Element.Value).erase callable := by
  induction es with
  | nil => simp
  | cons x rest ih =>
    by_cases hx : x.Value = callable
    · simp [hx]
    · have : ¬ (x.Value == callable) = true := by simpa using hx
      rw [List.eraseP_cons_of_neg (by simpa using hx), List.map_cons, List.map_cons,
        List.erase_cons_tail this, ih]

/-- The method `Remove` reports whether the record is registered and deletes its first
occurrence. -/
theorem Remove_spec (handler : EventHandler) (callable : EventCallable) :
    (handler.Remove callable).1 = decide (callable ∈ handler.handlers.values) ∧
    (handler.Remove callable).2.handlers.values = handler.handlers.values.erase callable ∧
    (handler.Remove callable).2.eventCount = handler.eventCount := by
  simp only [Remove, removeLoop_eq]
  cases hf : handler.handlers.elems.find? (fun e => decide (e.Value = callable)) with
  | none =>
    have hnot : callable ∉ handler.handlers.values := by
      intro hmem
      obtain ⟨e, he, hv⟩ := List.mem_map.mp hmem
      have := List.find?_eq_none.mp hf e he
      simp [hv] at this
    simp [hnot, List.erase_of_not_mem hnot]
  | some e =>
    have hmem : e ∈ handler.handlers.elems := List.mem_of_find?_eq_some hf
    have hv : e.Value = callable := by simpa using List.find?_some hf
    have hin : callable ∈ handler.handlers.values := hv ▸ List.mem_map_of_mem _ hmem
    refine ⟨by simp [hin], ?_, trivial⟩
    simp only [GoList.values, GoList.Remove]
    have := GoList.eraseP_id_of_find _ handler.handlers.elems handler.handlers.distinct e hf
    simp only [decide_eq_true_eq] at this ⊢
    rw [this]
    exact map_eraseP_value callable _

theorem findLoop_eq (cb : EventCallback) (es : List Element) :
    findLoop cb es = (es.map Element.Value).find? (fun c => decide (c.CallableFunc = cb)) := by
  induction es with
  | nil => simp [findLoop]
  | cons x rest ih =>
    by_cases hx : x.Value.CallableFunc = cb
    · simp [findLoop, hx]
    · simp [findLoop, hx, ih]

/-- The method `FindCallback` returns the front-most callable that wraps `cb`. -/
theorem FindCallback_spec (handler : EventHandler) (cb : EventCallback) :
    handler.FindCallback cb =
      handler.handlers.values.find? (fun c => decide (c.CallableFunc = cb)) :=
  findLoop_eq cb handler.handlers.elems

theorem id_ne_of_earlier (l : GoList) (pre rest : List Element) (e : Element)
    (h : l.elems = pre ++ e :: rest) : ∀ x ∈ pre, x.id ≠ e.id := by
  intro x hx heq
  have hnd := l.distinct
  rw [h, List.map_append, List.map_cons, List.nodup_append] at hnd
  exact hnd.2.2 (List.mem_map_of_mem _ hx) (heq ▸ List.mem_cons_self _ _)

theorem callLoop_spec (args : List Arg) :
    ∀ (rest pre : List Element) (l : GoList), l.elems = pre ++ rest →
      (callLoop args rest l).1.elems = pre ++ rest.filter (fun e => !e.Value.OnceFlag) ∧
      (callLoop args rest l).1.nextId = l.nextId ∧
      (callLoop args rest l).2 = rest.map (fun e => Task.call e.Value.CallableFunc args) := by
  intro rest
  induction rest with
  | nil => intro pre l h; simp [callLoop, h]
  | cons e rest ih =>
    intro pre l h
    by_cases ho : e.Value.OnceFlag = true
    · have hrem : (l.Remove e).elems = pre ++ rest := by
        have hne := id_ne_of_earlier l pre rest e h
        simp only [GoList.Remove, h]
        rw [List.eraseP_append_right _ (by simpa using hne)]
        simp
      obtain ⟨h1, h2, h3⟩ := ih pre (l.Remove e) hrem
      simp only [callLoop, ho, if_true]
      refine ⟨?_, ?_, ?_⟩
      · simpa [ho] using h1
      · simpa [GoList.Remove] using h2
      · simp [h3]
    · have hl : l.elems = (pre ++ [e]) ++ rest := by simp [h]
      obtain ⟨h1, h2, h3⟩ := ih (pre ++ [e]) l hl
      simp only [callLoop, ho]
      refine ⟨?_, ?_, ?_⟩
      · simpa [ho] using h1
      · simpa using h2
      · simp [h3]

/-- The method `Call` starts one invocation per registered callable, front to back, and
keeps exactly the callables that are not flagged once. -/
theorem Call_spec (handler : EventHandler) (args : List Arg) :
    (handler.Call args).1.handlers.values =
        handler.handlers.values.filter (fun c => !c.OnceFlag) ∧
    (handler.Call args).2 =
        handler.handlers.values.map (fun c => Task.call c.CallableFunc args) ∧
    (handler.Call args).1.eventCount = handler.eventCount := by
  obtain ⟨h1, _, h3⟩ := callLoop_spec args handler.handlers.elems [] handler.handlers rfl
  refine ⟨?_, ?_, rfl⟩
  · simp only [Call, GoList.values, h1, List.nil_append, List.filter_map]
    rfl
  · simp only [Call, h3, GoList.values, List.map_map]
    rfl

theorem iterLoop_rawVisitor :
    ∀ (rest pre : List Element) (handler : EventHandler) (acc : List EventCallback)
      (fuel : Nat), handler.handlers.elems = pre ++ rest → rest.length ≤ fuel →
      iterLoop EventEmitter.rawVisitor fuel rest.head? (handler, acc) =
        some (handler, acc ++ rest.map (fun e => e.Value.CallableFunc)) := by
  intro rest
  induction rest with
  | nil => intro pre handler acc fuel _ _; cases fuel <;> simp [iterLoop]
  | cons e rest ih =>
    intro pre handler acc fuel h hf
    cases fuel with
    | zero => simp at hf
    | succ fuel =>
      have hnext : handler.handlers.Next e = rest.head? := by
        simp only [GoList.Next, h]
        exact GoList.nextIn_append pre rest e (id_ne_of_earlier _ pre rest e h)
      have hl : handler.handlers.elems = (pre ++ [e]) ++ rest := by simp [h]
      have := ih (pre ++ [e]) handler (acc ++ [e.Value.CallableFunc]) fuel hl
        (by simpa using hf)
      simp only [List.head?_cons, iterLoop, hnext, EventEmitter.rawVisitor]
      simpa using this

theorem iterLoop_rawVisitor_short :
    ∀ (rest pre : List Element) (handler : EventHandler) (acc : List EventCallback)
      (fuel : Nat), handler.handlers.elems = pre ++ rest → fuel < rest.length →
      iterLoop EventEmitter.rawVisitor fuel rest.head? (handler, acc) = none := by
  intro rest
  induction rest with
  | nil => intro pre handler acc fuel _ hf; simp at hf
  | cons e rest ih =>
    intro pre handler acc fuel h hf
    cases fuel with
    | zero => simp [iterLoop]
    | succ fuel =>
      have hnext : handler.handlers.Next e = rest.head? := by
        simp only [GoList.Next, h]
        exact GoList.nextIn_append pre rest e (id_ne_of_earlier _ pre rest e h)
      have hl : handler.handlers.elems = (pre ++ [e]) ++ rest := by simp [h]
      have := ih (pre ++ [e]) handler (acc ++ [e.Value.CallableFunc]) fuel hl
        (by simpa using hf)
      simp only [List.head?_cons, iterLoop, hnext, EventEmitter.rawVisitor]
      simpa using this

/-- The method `Iterate` with the visitor of `RawListeners` collects the functions front
to back and leaves the registry as it is, as soon as the fuel covers the
length. -/
theorem Iterate_rawVisitor (handler : EventHandler) (fuel : Nat)
    (hf : handler.GetHandlersCount ≤ fuel) :
    Iterate EventEmitter.rawVisitor fuel (handler, []) =
      some (handler, handler.handlers.values.map EventCallable.CallableFunc) := by
  have := iterLoop_rawVisitor handler.handlers.elems [] handler [] fuel rfl hf
  simp only [Iterate, GoList.Front, this, List.nil_append, GoList.values, List.map_map]
  rfl

theorem iterLoop_removeAllVisitor (name : String) :
    ∀ (rest : List Element) (handler : EventHandler) (acc : List Task) (fuel : Nat),
      handler.handlers.elems = rest → rest.length ≤ fuel →
      ∃ h2 : EventHandler,
        iterLoop (EventEmitter.removeAllVisitor name) fuel rest.head? (handler, acc) =
          some (h2, acc ++ rest.map (fun e =>
            Task.emit "removeListener" [Arg.str name, Arg.fn e.Value.CallableFunc])) ∧
        h2.handlers.elems = [] ∧ h2.eventCount = handler.eventCount := by
  intro rest
  induction rest with
  | nil =>
    intro handler acc fuel h _
    exact ⟨handler, by cases fuel <;> simp [iterLoop], h, rfl⟩
  | cons e rest ih =>
    intro handler acc fuel h hf
    cases fuel with
    | zero => simp at hf
    | succ fuel =>
      have hnext : handler.handlers.Next e = rest.head? := by
        simp [GoList.Next, h, GoList.nextIn]
      have hrem : handler.Remove e.Value =
          (true, { handler with handlers := handler.handlers.Remove e }) := by
        simp [Remove, h, removeLoop]
      have hel : (handler.handlers.Remove e).elems = rest := by
        simp [GoList.Remove, h]
      obtain ⟨h2, e1, e2, e3⟩ := ih { handler with handlers := handler.handlers.Remove e }
        (acc ++ [Task.emit "removeListener" [Arg.str name, Arg.fn e.Value.CallableFunc]])
        fuel hel (by simpa using hf)
      refine ⟨h2, ?_, e2, e3⟩
      simp only [List.head?_cons, iterLoop, hnext, EventEmitter.removeAllVisitor, hrem,
        if_true]
      simpa using e1

theorem iterLoop_removeAllVisitor_short (name : String) :
    ∀ (rest : List Element) (handler : EventHandler) (acc : List Task) (fuel : Nat),
      handler.handlers.elems = rest → fuel < rest.length →
      iterLoop (EventEmitter.removeAllVisitor name) fuel rest.head? (handler, acc) = none := by
  intro rest
  induction rest with
  | nil => intro handler acc fuel _ hf; simp at hf
  | cons e rest ih =>
    intro handler acc fuel h hf
    cases fuel with
    | zero => simp [iterLoop]
    | succ fuel =>
      have hnext : handler.handlers.Next e = rest.head? := by
        simp [GoList.Next, h, GoList.nextIn]
      have hrem : handler.Remove e.Value =
          (true, { handler with handlers := handler.handlers.Remove e }) := by
        simp [Remove, h, removeLoop]
      have hel : (handler.handlers.Remove e).elems = rest := by
        simp [GoList.Remove, h]
      have := ih { handler with handlers := handler.handlers.Remove e }
        (acc ++ [Task.emit "removeListener" [Arg.str name, Arg.fn e.Value.CallableFunc]])
        fuel hel (by simpa using hf)
      simp only [List.head?_cons, iterLoop, hnext, EventEmitter.removeAllVisitor, hrem,
        if_true]
      simpa using this

/-- The method `Iterate` with the visitor of `RemoveAllListeners` empties the registry
and starts one `removeListener` emission per callable, front to back, as soon
as the fuel covers the length. -/
theorem Iterate_removeAllVisitor (name : String) (handler : EventHandler) (fuel : Nat)
    (hf : handler.GetHandlersCount ≤ fuel) :
    ∃ h2 : EventHandler,
      Iterate (EventEmitter.removeAllVisitor name) fuel (handler, []) =
        some (h2, handler.handlers.values.map (fun c =>
          Task.emit "removeListener" [Arg.str name, Arg.fn c.CallableFunc])) ∧
      h2.handlers.values = [] ∧ h2.eventCount = handler.eventCount := by
  obtain ⟨h2, e1, e2, e3⟩ :=
    iterLoop_removeAllVisitor name handler.handlers.elems handler [] fuel rfl hf
  refine ⟨h2, ?_, by simp [GoList.values, e2], e3⟩
  simp only [Iterate, GoList.Front, e1, List.nil_append, GoList.values, List.map_map]
  rfl

/-- A failed `Remove` returns the registry as it is. -/
theorem Remove_false (handler : EventHandler) (callable : EventCallable)
    (h : (handler.Remove callable).1 = false) : (handler.Remove callable).2 = handler := by
  simp only [Remove, removeLoop_eq] at h ⊢
  cases hf : handler.handlers.elems.find? (fun e => decide (e.Value = callable)) with
  | none => simp
  | some e => simp [hf] at h

theorem Remove_head (handler : EventHandler) (e : Element) (rest : List Element)
    (h : handler.handlers.elems = e :: rest) :
    handler.Remove e.Value = (true, { handler with handlers := handler.handlers.Remove e }) ∧
    (handler.handlers.Remove e).elems = rest ∧
    handler.handlers.Next e = rest.head? := by
  refine ⟨by simp [Remove, h, removeLoop], by simp [GoList.Remove, h], ?_⟩
  simp [GoList.Next, h, GoList.nextIn]

/-- The loop of `Iterate` with a visitor that removes the callable it is
called with: the visitor is applied to the callables one after the other, and
the registry ends empty. -/
theorem iterLoop_removing {α : Type}
    (cb : EventCallable → EventHandler × α → EventHandler × α)
    (hcb : ∀ c s, (cb c s).1 = (s.1.Remove c).2) :
    ∀ (rest : List Element) (s : EventHandler × α) (fuel : Nat),
      s.1.handlers.elems = rest → rest.length ≤ fuel →
      iterLoop cb fuel rest.head? s =
        some ((rest.map Element.Value).foldl (fun s c => cb c s) s) ∧
      ((rest.map Element.Value).foldl (fun s c => cb c s) s).1.handlers.elems = [] := by
  intro rest
  induction rest with
  | nil =>
    intro s fuel h _
    exact ⟨by cases fuel <;> simp [iterLoop], h⟩
  | cons e rest ih =>
    intro s fuel h hf
    cases fuel with
    | zero => simp at hf
    | succ fuel =>
      obtain ⟨r1, r2, r3⟩ := Remove_head s.1 e rest h
      have hel : (cb e.Value s).1.handlers.elems = rest := by
        rw [hcb, r1]
        exact r2
      obtain ⟨i1, i2⟩ := ih (cb e.Value s) fuel hel (by simpa using hf)
      refine ⟨?_, by simpa using i2⟩
      simp only [List.head?_cons, iterLoop, r3, List.map_cons, List.foldl_cons]
      exact i1

/-- The loop of `Iterate` with a visitor that leaves the registry as it is:
the visitor is applied to the callables one after the other. -/
theorem iterLoop_keeping {α : Type}
    (cb : EventCallable → EventHandler × α → EventHandler × α)
    (hcb : ∀ c s, (cb c s).1 = s.1) :
    ∀ (rest pre : List Element) (s : EventHandler × α) (fuel : Nat),
      s.1.handlers.elems = pre ++ rest → rest.length ≤ fuel →
      iterLoop cb fuel rest.head? s =
        some ((rest.map Element.Value).foldl (fun s c => cb c s) s) ∧
      ((rest.map Element.Value).foldl (fun s c => cb c s) s).1 = s.1 := by
  intro rest
  induction rest with
  | nil =>
    intro pre s fuel _ _
    exact ⟨by cases fuel <;> simp [iterLoop], rfl⟩
  | cons e rest ih =>
    intro pre s fuel h hf
    cases fuel with
    | zero => simp at hf
    | succ fuel =>
      have hnext : s.1.handlers.Next e = rest.head? := by
        simp only [GoList.Next, h]
        exact GoList.nextIn_append pre rest e (id_ne_of_earlier _ pre rest e h)
      have hel : (cb e.Value s).1.handlers.elems = (pre ++ [e]) ++ rest := by
        rw [hcb]
        simp [h]
      obtain ⟨i1, i2⟩ := ih (pre ++ [e]) (cb e.Value s) fuel hel (by simpa using hf)
      refine ⟨?_, ?_⟩
      · simp only [List.head?_cons, iterLoop, hnext, List.map_cons, List.foldl_cons]
        exact i1
      · simp only [List.map_cons, List.foldl_cons]
        rw [i2, hcb]

theorem foldl_removingVisitor (l : List EventCallable) (s : EventHandler × List EventCallable) :
    (l.foldl (fun s c => removingVisitor c s) s).2 = s.2 ++ l := by
  induction l generalizing s with
  | nil => simp
  | cons c rest ih =>
    rw [List.foldl_cons, ih]
    simp [removingVisitor]

theorem foldl_notingVisitor (l : List EventCallable) (s : EventHandler × List EventCallable) :
    (l.foldl (fun s c => notingVisitor c s) s).2 = s.2 ++ l := by
  induction l generalizing s with
  | nil => simp
  | cons c rest ih =>
    rw [List.foldl_cons, ih]
    simp [notingVisitor]

theorem Method_run_eventCount (m : Method) (handler : EventHandler) :
    (m.run handler).eventCount = handler.eventCount := by
  cases m with
  | Append c => rfl
  | Prepend c => rfl
  | Remove c => exact (Remove_spec handler c).2.2
  | FindCallback cb => rfl
  | Call args => exact (Call_spec handler args).2.2

theorem runMethods_eventCount (ms : List Method) (handler : EventHandler) :
    (runMethods ms handler).eventCount = handler.eventCount := by
  induction ms generalizing handler with
  | nil => rfl
  | cons m rest ih => simp only [runMethods]; rw [ih, Method_run_eventCount]

/-- The loop of `Iterate` with a visitor that keeps `eventCount` keeps it,
whatever the fuel and wherever the cursor is. -/
theorem iterLoop_eventCount {α : Type}
    (cb : EventCallable → EventHandler × α → EventHandler × α)
    (hcb : ∀ c s, (cb c s).1.eventCount = s.1.eventCount) :
    ∀ (fuel : Nat) (e : Option Element) (s s2 : EventHandler × α),
      iterLoop cb fuel e s = some s2 → s2.1.eventCount = s.1.eventCount := by
  intro fuel
  induction fuel with
  | zero =>
    intro e s s2 h
    cases e with
    | none => simp [iterLoop] at h; rw [← h]
    | some x => simp [iterLoop] at h
  | succ fuel ih =>
    intro e s s2 h
    cases e with
    | none => simp [iterLoop] at h; rw [← h]
    | some x =>
      simp only [iterLoop] at h
      rw [ih _ _ _ h, hcb]

end EventHandler

/-! ## Lemmas: the bus -/

namespace EventEmitter

theorem ListenerCount_eq (emitter : EventEmitter) (name : String) :
    emitter.ListenerCount name = (emitter.registered name).length := by
  simp only [ListenerCount, registered]
  cases mapGet emitter.handlers name <;>
    simp [EventHandler.GetHandlersCount, GoList.Len_eq]

/-- With fuel for every registered callable `RawListeners` returns the
functions of the registered callables, front to back. -/
theorem RawListeners_eq (fuel : Nat) (emitter : EventEmitter) (name : String)
    (hf : emitter.ListenerCount name ≤ fuel) :
    RawListeners fuel emitter name =
      some ((emitter.registered name).map EventCallable.CallableFunc) := by
  simp only [ListenerCount, RawListeners, registered] at hf ⊢
  cases hg : mapGet emitter.handlers name with
  | none => simp
  | some handler =>
    simp only [hg] at hf
    simp [EventHandler.Iterate_rawVisitor handler fuel hf]

/-- With less fuel `RawListeners` does not return. -/
theorem RawListeners_short (fuel : Nat) (emitter : EventEmitter) (name : String)
    (hf : fuel < emitter.ListenerCount name) :
    RawListeners fuel emitter name = none := by
  simp only [ListenerCount, RawListeners] at hf ⊢
  cases hg : mapGet emitter.handlers name with
  | none => simp [hg] at hf
  | some handler =>
    simp only [hg] at hf
    have := EventHandler.iterLoop_rawVisitor_short handler.handlers.elems [] handler [] fuel
      rfl hf
    simp [EventHandler.Iterate, GoList.Front, this]

theorem registered_set (e2 emitter : EventEmitter) (k : String) (v : EventHandler)
    (h : e2.handlers = mapSet emitter.handlers k v) (n : String) :
    e2.registered n = if k = n then v.handlers.values else emitter.registered n := by
  simp only [registered, h, mapGet_mapSet]
  by_cases hk : k = n <;> simp [hk]

theorem mem_EventNames_of_mapGet (emitter : EventEmitter) (name : String)
    (handler : EventHandler) (h : mapGet emitter.handlers name = some handler) :
    name ∈ emitter.EventNames :=
  (mapGet_isSome_iff _ _).mp (by simp [h])

theorem Subscription_run_eq (k : Subscription) (emitter : EventEmitter) (name : String)
    (cb : EventCallback) :
    k.run emitter name cb = emitter.addHandler name cb k.once k.atEnd := by
  cases k <;> rfl

/-- What `getOrCreateHandler` does: the registry of `name` afterwards, created
empty when there was none. -/
theorem getOrCreateHandler_spec (emitter : EventEmitter) (name : String) :
    mapGet (emitter.getOrCreateHandler name).2.handlers name =
        some (emitter.getOrCreateHandler name).1 ∧
    (emitter.getOrCreateHandler name).1.handlers.values = emitter.registered name ∧
    (emitter.getOrCreateHandler name).2.MaxListener = emitter.MaxListener ∧
    (emitter.getOrCreateHandler name).2.nextAddr = emitter.nextAddr ∧
    (∀ n, (emitter.getOrCreateHandler name).2.registered n = emitter.registered n) ∧
    (∀ n, n ∈ (emitter.getOrCreateHandler name).2.EventNames ↔
        n ∈ emitter.EventNames ∨ n = name) := by
  cases hg : mapGet emitter.handlers name with
  | none =>
    have hr : emitter.registered name = [] := by simp [registered, hg]
    have e : emitter.getOrCreateHandler name = (EventHandler.new,
        { emitter with handlers := mapSet emitter.handlers name EventHandler.new }) := by
      simp [getOrCreateHandler, hg]
    rw [e]
    refine ⟨by simp [mapGet_mapSet], by simp [hr, EventHandler.new], rfl, rfl, ?_, ?_⟩
    · intro n
      rw [registered_set _ emitter name EventHandler.new rfl]
      by_cases hn : name = n
      · subst hn; simp [hr, EventHandler.new]
      · simp [hn]
    · intro n
      simp [EventNames, mapSet_names_of_none _ _ _ hg]
  | some handler =>
    have hr : emitter.registered name = handler.handlers.values := by
      simp [registered, hg]
    have e : emitter.getOrCreateHandler name = (handler, emitter) := by
      simp [getOrCreateHandler, hg]
    rw [e]
    refine ⟨hg, hr.symm, rfl, rfl, fun _ => rfl, ?_⟩
    intro n
    constructor
    · exact Or.inl
    · rintro (h | h)
      · exact h
      · subst h; exact mem_EventNames_of_mapGet _ _ _ hg

/-- What `addHandler` does, in terms of the registered callables. -/
theorem addHandler_spec (emitter : EventEmitter) (name : String) (cb : EventCallback)
    (once atEnd : Bool) :
    (emitter.addHandler name cb once atEnd).ret =
        decide (emitter.ListenerCount name < emitter.MaxListener) ∧
    (emitter.addHandler name cb once atEnd).bus.MaxListener = emitter.MaxListener ∧
    (∀ n, (emitter.addHandler name cb once atEnd).bus.registered n =
        if n = name ∧ emitter.ListenerCount name < emitter.MaxListener then
          (if atEnd then emitter.registered name ++ [⟨emitter.nextAddr, cb, once⟩]
           else ⟨emitter.nextAddr, cb, once⟩ :: emitter.registered name)
        else emitter.registered n) ∧
    (emitter.addHandler name cb once atEnd).sched =
        (if emitter.ListenerCount name < emitter.MaxListener then
          [Task.emit "newListener" [Arg.str name, Arg.fn cb]] else []) ∧
    (∀ n, n ∈ (emitter.addHandler name cb once atEnd).bus.EventNames ↔
        n ∈ emitter.EventNames ∨ n = name) := by
  obtain ⟨g1, g2, g3, g4, g5, g6⟩ := getOrCreateHandler_spec emitter name
  have hc : (emitter.getOrCreateHandler name).1.GetHandlersCount =
      emitter.ListenerCount name := by
    rw [ListenerCount_eq, ← g2, EventHandler.GetHandlersCount, GoList.Len_eq]
  by_cases hm : emitter.ListenerCount name < emitter.MaxListener
  · have hge : ¬ (emitter.getOrCreateHandler name).1.GetHandlersCount ≥
        (emitter.getOrCreateHandler name).2.MaxListener := by rw [hc, g3]; omega
    simp only [addHandler, hge, if_false, hm, decide_True, and_true, if_true]
    refine ⟨trivial, g3, ?_, trivial, ?_⟩
    · intro n
      rw [registered_set _ (emitter.getOrCreateHandler name).2 name _ rfl]
      by_cases hn : n = name
      · subst hn
        cases atEnd <;> simp [EventHandler.Append, EventHandler.Prepend, g2, g4]
      · have : ¬ name = n := fun h => hn h.symm
        simp [this, hn, g5]
    · intro n
      rw [← g6 n]
      simp only [EventNames]
      rw [mapSet_names_of_some _ _ _ _ g1]
  · have hge : (emitter.getOrCreateHandler name).1.GetHandlersCount ≥
        (emitter.getOrCreateHandler name).2.MaxListener := by rw [hc, g3]; omega
    simp only [addHandler, hge, if_true, hm, decide_False, and_false, if_false]
    exact ⟨trivial, g3, g5, trivial, g6⟩

theorem erase_of_find {p : EventCallable → Bool} :
    ∀ (l : List EventCallable) (c : EventCallable), l.find? p = some c →
      l.erase c = l.eraseP p := by
  intro l
  induction l with
  | nil => intro c h; simp at h
  | cons x rest ih =>
    intro c h
    by_cases hp : p x = true
    · rw [List.find?_cons_of_pos _ hp] at h
      cases h
      simp [hp]
    · rw [List.find?_cons_of_neg _ hp] at h
      have hpc : p c = true := List.find?_some h
      have hne : ¬ (x == c) = true := by
        intro heq
        have : x = c := by simpa using heq
        exact hp (this ▸ hpc)
      rw [List.erase_cons_tail hne, List.eraseP_cons_of_neg hp, ih c h]

/-- What `Emit` does, in terms of the registered callables. -/
theorem Emit_spec (emitter : EventEmitter) (name : String) (args : List Arg) :
    (emitter.Emit name args).sched =
        (emitter.registered name).map (fun c => Task.call c.CallableFunc args) ∧
    (∀ n, (emitter.Emit name args).bus.registered n =
        if n = name then (emitter.registered name).filter (fun c => !c.OnceFlag)
        else emitter.registered n) ∧
    (emitter.Emit name args).bus.MaxListener = emitter.MaxListener ∧
    (emitter.Emit name args).bus.EventNames = emitter.EventNames ∧
    (emitter.Emit name args).bus.nextAddr = emitter.nextAddr := by
  cases hg : mapGet emitter.handlers name with
  | none =>
    have hr : emitter.registered name = [] := by simp [registered, hg]
    have e : emitter.Emit name args = ⟨(), emitter, []⟩ := by simp [Emit, hg]
    rw [e]
    refine ⟨by simp [hr], ?_, rfl, rfl, rfl⟩
    intro n
    by_cases hn : n = name
    · subst hn; simp [hr]
    · simp [hn]
  | some handler =>
    have hr : emitter.registered name = handler.handlers.values := by
      simp [registered, hg]
    obtain ⟨c1, c2, _⟩ := EventHandler.Call_spec handler args
    have e : emitter.Emit name args = ⟨(),
        { emitter with handlers := mapSet emitter.handlers name (handler.Call args).1 },
        (handler.Call args).2⟩ := by simp [Emit, hg]
    rw [e]
    refine ⟨by simp [c2, hr], ?_, rfl, ?_, rfl⟩
    · intro n
      rw [registered_set _ emitter name _ rfl]
      by_cases hn : n = name
      · subst hn; simp [c1, hr]
      · have : ¬ name = n := fun h => hn h.symm
        simp [this, hn]
    · simp only [EventNames]
      exact mapSet_names_of_some _ _ _ _ hg

/-- The method `Emit` on a name without a registry changes nothing. -/
theorem Emit_of_none (emitter : EventEmitter) (name : String) (args : List Arg)
    (h : mapGet emitter.handlers name = none) :
    (emitter.Emit name args).bus = emitter ∧ (emitter.Emit name args).sched = [] := by
  simp [Emit, h]

/-- What `RemoveListener` does, in terms of the registered callables. -/
theorem RemoveListener_spec (emitter : EventEmitter) (name : String) (cb : EventCallback) :
    (emitter.RemoveListener name cb).ret =
        (emitter.registered name).any (fun c => decide (c.CallableFunc = cb)) ∧
    (∀ n, (emitter.RemoveListener name cb).bus.registered n =
        if n = name then
          (emitter.registered name).eraseP (fun c => decide (c.CallableFunc = cb))
        else emitter.registered n) ∧
    (emitter.RemoveListener name cb).sched =
        (if (emitter.RemoveListener name cb).ret then
          [Task.emit "removeListener" [Arg.str name, Arg.fn cb]] else []) ∧
    ((emitter.RemoveListener name cb).ret = false →
        (emitter.RemoveListener name cb).bus = emitter) ∧
    (emitter.RemoveListener name cb).bus.MaxListener = emitter.MaxListener ∧
    (emitter.RemoveListener name cb).bus.EventNames = emitter.EventNames ∧
    (emitter.RemoveListener name cb).bus.nextAddr = emitter.nextAddr := by
  cases hg : mapGet emitter.handlers name with
  | none =>
    have hr : emitter.registered name = [] := by simp [registered, hg]
    have e : emitter.RemoveListener name cb = ⟨false, emitter, []⟩ := by
      simp [RemoveListener, hg]
    rw [e]
    refine ⟨by simp [hr], ?_, by simp, fun _ => rfl, rfl, rfl, rfl⟩
    intro n
    by_cases hn : n = name
    · subst hn; simp [hr]
    · simp [hn]
  | some handler =>
    have hr : emitter.registered name = handler.handlers.values := by
      simp [registered, hg]
    cases hf : handler.FindCallback cb with
    | none =>
      have e : emitter.RemoveListener name cb = ⟨false, emitter, []⟩ := by
        simp [RemoveListener, hg, hf]
      rw [EventHandler.FindCallback_spec] at hf
      have hall : ∀ c ∈ handler.handlers.values, ¬ c.CallableFunc = cb := by
        intro c hc
        simpa using List.find?_eq_none.mp hf c hc
      rw [e]
      refine ⟨?_, ?_, by simp, fun _ => rfl, rfl, rfl, rfl⟩
      · rw [hr]
        symm
        rw [Bool.eq_false_iff]
        intro hany
        obtain ⟨c, hc, hp⟩ := List.any_eq_true.mp hany
        exact hall c hc (by simpa using hp)
      · intro n
        by_cases hn : n = name
        · subst hn
          rw [hr, List.eraseP_of_forall_not (fun c hc => by simpa using hall c hc)]
          simp
        · simp [hn]
    | some callable =>
      obtain ⟨r1, r2, _⟩ := EventHandler.Remove_spec handler callable
      have hf2 := hf
      rw [EventHandler.FindCallback_spec] at hf2
      have hmem : callable ∈ handler.handlers.values := List.mem_of_find?_eq_some hf2
      have hcb : callable.CallableFunc = cb := by simpa using List.find?_some hf2
      have hret : (handler.Remove callable).1 = true := by simp [r1, hmem]
      have e : emitter.RemoveListener name cb = ⟨true,
          { emitter with handlers := mapSet emitter.handlers name (handler.Remove callable).2 },
          [Task.emit "removeListener" [Arg.str name, Arg.fn cb]]⟩ := by
        simp [RemoveListener, hg, hf, hret, hcb]
      rw [e]
      refine ⟨?_, ?_, by simp, by simp, rfl, ?_, rfl⟩
      · rw [hr]
        symm
        exact List.any_eq_true.mpr ⟨callable, hmem, by simpa using hcb⟩
      · intro n
        rw [registered_set _ emitter name _ rfl]
        by_cases hn : n = name
        · subst hn
          simp only [if_true, r2, hr]
          exact erase_of_find _ _ hf2
        · have : ¬ name = n := fun h => hn h.symm
          simp [this, hn]
      · simp only [EventNames]
        exact mapSet_names_of_some _ _ _ _ hg

/-- What `RemoveAllListeners` does when the fuel covers the registered
callables. -/
theorem RemoveAllListeners_spec (fuel : Nat) (emitter : EventEmitter) (name : String)
    (hf : emitter.ListenerCount name ≤ fuel) :
    ∃ o : Outcome Unit, RemoveAllListeners fuel emitter name = some o ∧
      o.sched = (emitter.registered name).map (fun c =>
        Task.emit "removeListener" [Arg.str name, Arg.fn c.CallableFunc]) ∧
      (∀ n, o.bus.registered n = if n = name then [] else emitter.registered n) ∧
      o.bus.MaxListener = emitter.MaxListener ∧
      o.bus.EventNames = emitter.EventNames ∧
      o.bus.nextAddr = emitter.nextAddr ∧
      (mapGet emitter.handlers name = none → o.bus = emitter) := by
  cases hg : mapGet emitter.handlers name with
  | none =>
    have hr : emitter.registered name = [] := by simp [registered, hg]
    refine ⟨⟨(), emitter, []⟩, by simp [RemoveAllListeners, hg], by simp [hr], ?_, rfl, rfl,
      rfl, fun _ => rfl⟩
    intro n
    by_cases hn : n = name
    · subst hn; simp [hr]
    · simp [hn]
  | some handler =>
    have hr : emitter.registered name = handler.handlers.values := by
      simp [registered, hg]
    have hf2 : handler.GetHandlersCount ≤ fuel := by
      simpa [ListenerCount, hg] using hf
    obtain ⟨h2, e1, e2, _⟩ := EventHandler.Iterate_removeAllVisitor name handler fuel hf2
    refine ⟨⟨(), { emitter with handlers := mapSet emitter.handlers name h2 },
        handler.handlers.values.map (fun c =>
          Task.emit "removeListener" [Arg.str name, Arg.fn c.CallableFunc])⟩,
      by simp [RemoveAllListeners, hg, e1], by simp [hr], ?_, rfl, ?_, rfl, by simp⟩
    · intro n
      rw [registered_set _ emitter name _ rfl]
      by_cases hn : n = name
      · subst hn; simp [e2]
      · have : ¬ name = n := fun h => hn h.symm
        simp [this, hn]
    · simp only [EventNames]
      exact mapSet_names_of_some _ _ _ _ hg

/-- With less fuel `RemoveAllListeners` does not return. -/
theorem RemoveAllListeners_short (fuel : Nat) (emitter : EventEmitter) (name : String)
    (hf : fuel < emitter.ListenerCount name) :
    RemoveAllListeners fuel emitter name = none := by
  simp only [ListenerCount, RemoveAllListeners] at hf ⊢
  cases hg : mapGet emitter.handlers name with
  | none => simp [hg] at hf
  | some handler =>
    simp only [hg] at hf
    have := EventHandler.iterLoop_removeAllVisitor_short name handler.handlers.elems handler
      [] fuel rfl hf
    simp [EventHandler.Iterate, GoList.Front, this]

theorem RawListeners_congr (fuel : Nat) (e1 e2 : EventEmitter) (n : String)
    (h : e1.registered n = e2.registered n) :
    RawListeners fuel e1 n = RawListeners fuel e2 n := by
  have hc : e1.ListenerCount n = e2.ListenerCount n := by
    rw [ListenerCount_eq, ListenerCount_eq, h]
  by_cases hf : e1.ListenerCount n ≤ fuel
  · rw [RawListeners_eq fuel e1 n hf, RawListeners_eq fuel e2 n (hc ▸ hf), h]
  · rw [RawListeners_short fuel e1 n (by omega), RawListeners_short fuel e2 n (by omega)]

/-- A subscription that fails on a name that has a registry leaves the bus as
it is. -/
theorem addHandler_fail_of_some (emitter : EventEmitter) (name : String)
    (cb : EventCallback) (once atEnd : Bool) (handler : EventHandler)
    (hg : mapGet emitter.handlers name = some handler)
    (hret : (emitter.addHandler name cb once atEnd).ret = false) :
    (emitter.addHandler name cb once atEnd).bus = emitter := by
  have e : emitter.getOrCreateHandler name = (handler, emitter) := by
    simp [getOrCreateHandler, hg]
  by_cases hm : handler.GetHandlersCount ≥ emitter.MaxListener
  · simp [addHandler, e, hm]
  · simp [addHandler, e, hm] at hret

theorem runIncr_perm {p q : List Task} (h : p.Perm q) :
    ∀ counter, runIncr p counter = runIncr q counter := by
  induction h with
  | nil => intro _; rfl
  | cons x _ ih =>
    intro counter
    cases x <;> simp [runIncr, ih]
  | swap x y l =>
    intro counter
    cases x <;> cases y <;> simp [runIncr, add_right_comm]
  | trans _ _ ih1 ih2 => intro counter; rw [ih1, ih2]

theorem ListenerCount_subscribe (emitter : EventEmitter) (k : Subscription) (n : String)
    (cb : EventCallback) (name : String) :
    (k.run emitter n cb).bus.ListenerCount name =
      emitter.ListenerCount name +
        (if (Request.subscribe k n cb).subscribes name emitter then 1 else 0) := by
  simp only [Request.subscribes]
  have hs := addHandler_spec emitter n cb k.once k.atEnd
  rw [← Subscription_run_eq] at hs
  obtain ⟨h1, _, h3, _, _⟩ := hs
  have e := h3 name
  by_cases hn : n = name
  · subst hn
    by_cases hlt : emitter.ListenerCount n < emitter.MaxListener
    · rw [if_pos ⟨rfl, hlt⟩] at e
      rw [ListenerCount_eq, e, ListenerCount_eq]
      cases k.atEnd <;> simp [h1, hlt]
    · rw [if_neg (fun h => hlt h.2)] at e
      rw [ListenerCount_eq, e, ListenerCount_eq]
      simp [h1, hlt]
  · have hn2 : ¬ name = n := fun h => hn h.symm
    rw [if_neg (fun h => hn2 h.1)] at e
    rw [ListenerCount_eq, e, ListenerCount_eq]
    simp [hn]

theorem ListenerCount_removeListener (emitter : EventEmitter) (n : String)
    (cb : EventCallback) (name : String) :
    (emitter.RemoveListener n cb).bus.ListenerCount name +
        (if (Request.removeListener n cb).removes name emitter then 1 else 0) =
      emitter.ListenerCount name := by
  simp only [Request.removes]
  obtain ⟨r1, r2, _⟩ := RemoveListener_spec emitter n cb
  have e := r2 name
  by_cases hn : n = name
  · subst hn
    rw [if_pos rfl] at e
    rw [ListenerCount_eq, e, ListenerCount_eq, List.length_eraseP]
    simp only [r1, decide_True, Bool.true_and]
    cases hany : (emitter.registered n).any (fun c => decide (c.CallableFunc = cb)) with
    | false => simp
    | true =>
      obtain ⟨c, hc, _⟩ := List.any_eq_true.mp hany
      have : 0 < (emitter.registered n).length := List.length_pos_of_mem hc
      simp
      omega
  · have hn2 : ¬ name = n := fun h => hn h.symm
    rw [if_neg hn2] at e
    rw [ListenerCount_eq, e, ListenerCount_eq]
    simp [hn]

theorem ListenerCount_emit_of_ne (emitter : EventEmitter) (n : String) (args : List Arg)
    (name : String) (hn : n ≠ name) :
    (emitter.Emit n args).bus.ListenerCount name = emitter.ListenerCount name := by
  have e := (Emit_spec emitter n args).2.1 name
  rw [if_neg (fun h => hn h.symm)] at e
  rw [ListenerCount_eq, e, ListenerCount_eq]

/-- The accounting from any bus: the count at the end and the successful
removals make up the count at the start and the successful subscriptions. -/
theorem runRequests_accounting (name : String) :
    ∀ (reqs : List Request) (emitter : EventEmitter),
      (∀ r ∈ reqs, r.emitsOn name = false) →
      (runRequests reqs emitter).ListenerCount name + removedCount name reqs emitter =
        emitter.ListenerCount name + subscribedCount name reqs emitter := by
  intro reqs
  induction reqs with
  | nil => intro emitter _; simp [runRequests, removedCount, subscribedCount]
  | cons r rest ih =>
    intro emitter h
    have ih2 := ih (r.bus emitter) (fun x hx => h x (List.mem_cons_of_mem _ hx))
    have hr := h r (List.mem_cons_self _ _)
    simp only [runRequests, removedCount, subscribedCount]
    cases r with
    | subscribe k n cb =>
      have := ListenerCount_subscribe emitter k n cb name
      simp only [Request.bus] at ih2 ⊢
      simp only [Request.removes]
      rw [this] at ih2
      simp only [Bool.false_eq_true, if_false]
      omega
    | removeListener n cb =>
      have := ListenerCount_removeListener emitter n cb name
      simp only [Request.bus] at ih2 ⊢
      simp only [Request.subscribes]
      simp only [Bool.false_eq_true, if_false]
      omega
    | emit n args =>
      have hn : n ≠ name := by simpa [Request.emitsOn] using hr
      have := ListenerCount_emit_of_ne emitter n args name hn
      simp only [Request.bus] at ih2 ⊢
      simp only [Request.subscribes, Request.removes]
      rw [this] at ih2
      simp only [Bool.false_eq_true, if_false]
      omega

theorem Subscription_run_ret (emitter : EventEmitter) (k : Subscription) (n : String)
    (cb : EventCallback) :
    (k.run emitter n cb).ret = decide (emitter.ListenerCount n < emitter.MaxListener) ∧
    (k.run emitter n cb).bus.MaxListener = emitter.MaxListener := by
  rw [Subscription_run_eq]
  obtain ⟨h1, h2, _⟩ := addHandler_spec emitter n cb k.once k.atEnd
  exact ⟨h1, h2⟩

/-- After `n` subscriptions on one name its count is the count before plus
`n`, capped by the limit. -/
theorem runRequests_subscriptions (name : String) :
    ∀ (subs : List (Subscription × EventCallback)) (emitter : EventEmitter),
      emitter.ListenerCount name ≤ emitter.MaxListener →
      (runRequests (subs.map (fun p => Request.subscribe p.1 name p.2)) emitter).ListenerCount
          name = min (emitter.ListenerCount name + subs.length) emitter.MaxListener ∧
      (runRequests (subs.map (fun p => Request.subscribe p.1 name p.2)) emitter).MaxListener =
          emitter.MaxListener := by
  intro subs
  induction subs with
  | nil => intro emitter h; simp [runRequests, h]
  | cons p rest ih =>
    intro emitter h
    obtain ⟨c1, c4⟩ := Subscription_run_ret emitter p.1 name p.2
    have hc := ListenerCount_subscribe emitter p.1 name p.2 name
    simp only [Request.subscribes, decide_True, Bool.true_and, c1, decide_eq_true_eq] at hc
    simp only [List.map_cons, runRequests, Request.bus, List.length_cons]
    by_cases hlt : emitter.ListenerCount name < emitter.MaxListener
    · rw [if_pos hlt] at hc
      obtain ⟨i1, i2⟩ := ih (p.1.run emitter name p.2).bus (by rw [hc, c4]; omega)
      rw [i1, i2, hc, c4]
      exact ⟨by omega, rfl⟩
    · rw [if_neg hlt] at hc
      obtain ⟨i1, i2⟩ := ih (p.1.run emitter name p.2).bus (by rw [hc, c4]; omega)
      rw [i1, i2, hc, c4]
      refine ⟨?_, rfl⟩
      rw [Nat.min_eq_right (by omega), Nat.min_eq_right (by omega)]

/-- Whenever `RemoveAllListeners` returns, the fuel covered the registered
callables and the outcome is the one of `RemoveAllListeners_spec`. -/
theorem RemoveAllListeners_some (fuel : Nat) (emitter : EventEmitter) (name : String)
    (o : Outcome Unit) (h : RemoveAllListeners fuel emitter name = some o) :
    emitter.ListenerCount name ≤ fuel ∧
    o.sched = (emitter.registered name).map (fun c =>
        Task.emit "removeListener" [Arg.str name, Arg.fn c.CallableFunc]) ∧
    (∀ n, o.bus.registered n = if n = name then [] else emitter.registered n) ∧
    o.bus.MaxListener = emitter.MaxListener ∧
    o.bus.EventNames = emitter.EventNames ∧
    (mapGet emitter.handlers name = none → o.bus = emitter) := by
  by_cases hf : emitter.ListenerCount name ≤ fuel
  · obtain ⟨o2, e1, e2, e3, e4, e5, _, e7⟩ := RemoveAllListeners_spec fuel emitter name hf
    rw [e1] at h
    cases h
    exact ⟨hf, e2, e3, e4, e5, e7⟩
  · rw [RemoveAllListeners_short fuel emitter name (by omega)] at h
    cases h

theorem mapGet_none_of_not_mem (emitter : EventEmitter) (name : String)
    (h : name ∉ emitter.EventNames) : mapGet emitter.handlers name = none := by
  cases hg : mapGet emitter.handlers name with
  | none => rfl
  | some handler => exact absurd (mem_EventNames_of_mapGet _ _ _ hg) h

end EventEmitter

open EventEmitter

/-! ## The claims -/

/-- C1: each of On, AddListener, Once, PrependListener and PrependOnceListener
returns true exactly when `ListenerCount name` is below `MaxListener` before
the call; on true the count of the name grows by one, on false it stays, the
limit itself is never changed, and with a limit of 0 no subscription
succeeds. -/
theorem C1_subscribe_iff_below_limit (emitter : EventEmitter) (k : Subscription)
    (name : String) (fn : EventCallback) :
    ((k.run emitter name fn).ret = true ↔
        emitter.ListenerCount name < emitter.MaxListener) ∧
    ((k.run emitter name fn).ret = true →
        (k.run emitter name fn).bus.ListenerCount name = emitter.ListenerCount name + 1) ∧
    ((k.run emitter name fn).ret = false →
        (k.run emitter name fn).bus.ListenerCount name = emitter.ListenerCount name) ∧
    (k.run emitter name fn).bus.MaxListener = emitter.MaxListener ∧
    (emitter.MaxListener = 0 → (k.run emitter name fn).ret = false) := by
  rw [Subscription_run_eq]
  obtain ⟨h1, h2, h3, _, _⟩ := addHandler_spec emitter name fn k.once k.atEnd
  refine ⟨by simp [h1], ?_, ?_, h2, ?_⟩
  · intro hret
    have hlt : emitter.ListenerCount name < emitter.MaxListener := by simpa [h1] using hret
    have e := h3 name
    rw [if_pos ⟨rfl, hlt⟩] at e
    rw [ListenerCount_eq, e, ListenerCount_eq]
    cases k.atEnd <;> simp
  · intro hret
    have hlt : ¬ emitter.ListenerCount name < emitter.MaxListener := by
      simpa [h1] using hret
    have e := h3 name
    rw [if_neg (fun h => hlt h.2)] at e
    rw [ListenerCount_eq, e, ListenerCount_eq]
  · intro h0
    simp [h1, h0]

/-- C1, at concrete calls: on a bus of limit 1 the first `On` succeeds and the
count goes from 0 to 1, the following `PrependOnceListener` fails and the count
stays 1, and on a bus of limit 0 `Once` fails. -/
theorem C1_subscribe_iff_below_limit_witness :
    ((NewEventEmitter 1).On "x" 7).bus.ListenerCount "x" = 0 + 1 ∧
    (((NewEventEmitter 1).On "x" 7).bus.PrependOnceListener "x" 8).bus.ListenerCount "x" = 1 ∧
    ((NewEventEmitter 0).Once "y" 7).ret = false :=
  ⟨(C1_subscribe_iff_below_limit (NewEventEmitter 1) .On "x" 7).2.1 (by decide),
   (C1_subscribe_iff_below_limit ((NewEventEmitter 1).On "x" 7).bus .PrependOnceListener
      "x" 8).2.2.1 (by decide),
   (C1_subscribe_iff_below_limit (NewEventEmitter 0) .Once "y" 7).2.2.2.2 (by decide)⟩

/-- C2: in every state reachable from `NewEventEmitter m` by calls of the
subscription methods, RemoveListener, RemoveAllListeners and Emit (the
scheduled newListener and removeListener emissions are calls of Emit),
`MaxListener` is still `m` and `ListenerCount name` is at most `m` for every
name. -/
theorem C2_capacity_invariant (m : Nat) (emitter : EventEmitter)
    (h : Reachable m emitter) :
    emitter.MaxListener = m ∧ ∀ name, emitter.ListenerCount name ≤ m := by
  induction h with
  | init => exact ⟨rfl, fun name => by simp [NewEventEmitter, ListenerCount, mapGet]⟩
  | @subscribe em k name cb _ ih =>
    obtain ⟨hm, hc⟩ := ih
    rw [Subscription_run_eq]
    obtain ⟨_, h2, h3, _, _⟩ := addHandler_spec em name cb k.once k.atEnd
    refine ⟨h2.trans hm, fun n => ?_⟩
    have e := h3 n
    by_cases hn : n = name ∧ em.ListenerCount name < em.MaxListener
    · rw [if_pos hn] at e
      have hlt := hn.2
      rw [ListenerCount_eq] at hlt
      rw [ListenerCount_eq, e]
      cases k.atEnd <;> simp <;> omega
    · rw [if_neg hn] at e
      rw [ListenerCount_eq, e, ← ListenerCount_eq]
      exact hc n
  | @removeListener em name cb _ ih =>
    obtain ⟨hm, hc⟩ := ih
    obtain ⟨_, h2, _, _, h5, _, _⟩ := RemoveListener_spec em name cb
    refine ⟨h5.trans hm, fun n => ?_⟩
    have hn := hc n
    rw [ListenerCount_eq] at hn
    rw [ListenerCount_eq, h2 n]
    split
    · next h =>
      subst h
      exact le_trans (List.eraseP_sublist _).length_le hn
    · exact hn
  | @removeAllListeners em fuel name o _ hrun ih =>
    obtain ⟨hm, hc⟩ := ih
    by_cases hf : em.ListenerCount name ≤ fuel
    · obtain ⟨o2, e1, _, e3, e4, _, _, _⟩ := RemoveAllListeners_spec fuel em name hf
      rw [e1] at hrun
      cases hrun
      refine ⟨e4.trans hm, fun n => ?_⟩
      rw [ListenerCount_eq, e3 n]
      split
      · simp
      · rw [← ListenerCount_eq]; exact hc n
    · rw [RemoveAllListeners_short fuel em name (by omega)] at hrun
      cases hrun
  | @emit em name args _ ih =>
    obtain ⟨hm, hc⟩ := ih
    obtain ⟨_, h2, h3, _, _⟩ := Emit_spec em name args
    refine ⟨h3.trans hm, fun n => ?_⟩
    have hn := hc n
    rw [ListenerCount_eq] at hn
    rw [ListenerCount_eq, h2 n]
    split
    · next h =>
      subst h
      exact le_trans (List.length_filter_le _ _) hn
    · exact hn

/-- C2, at a concrete run: two `On` calls and one `PrependListener` call on
the name x of a bus of limit 2, then an `Emit` and a `RemoveListener`; the
state is reachable and holds at most 2 listeners for x. -/
theorem C2_capacity_invariant_witness :
    Reachable 2 ((((((NewEventEmitter 2).On "x" 1).bus.On "x" 2).bus.PrependListener "x"
        3).bus.Emit "x" []).bus.RemoveListener "x" 1).bus ∧
    ((((((NewEventEmitter 2).On "x" 1).bus.On "x" 2).bus.PrependListener "x"
        3).bus.Emit "x" []).bus.RemoveListener "x" 1).bus.ListenerCount "x" ≤ 2 :=
  ⟨.removeListener "x" 1 (.emit "x" [] (.subscribe .PrependListener "x" 3
      (.subscribe .On "x" 2 (.subscribe .On "x" 1 .init)))),
   (C2_capacity_invariant 2 _
      (.removeListener "x" 1 (.emit "x" [] (.subscribe .PrependListener "x" 3
        (.subscribe .On "x" 2 (.subscribe .On "x" 1 .init)))))).2 "x"⟩

/-- C3 as stated fails: on a bus of limit 0 `On` for the name x, which has no
registry, returns false, and x is in `EventNames` afterwards though it was not
before. -/
theorem C3_counterexample :
    ((NewEventEmitter 0).On "x" 1).ret = false ∧
    "x" ∉ (NewEventEmitter 0).EventNames ∧
    "x" ∈ ((NewEventEmitter 0).On "x" 1).bus.EventNames := by
  decide

/-- C3, amended: a subscription that returns false leaves the registered
callables, `RawListeners` and `ListenerCount` of every name and `MaxListener`
as they were; `EventNames` afterwards holds the names it held before and
`name`; and when `name` was in `EventNames` before, the bus is unchanged. -/
theorem C3_failed_subscribe_frame (emitter : EventEmitter) (k : Subscription)
    (name : String) (fn : EventCallback) (hret : (k.run emitter name fn).ret = false) :
    (∀ n, (k.run emitter name fn).bus.registered n = emitter.registered n) ∧
    (∀ fuel n, RawListeners fuel (k.run emitter name fn).bus n =
        RawListeners fuel emitter n) ∧
    (∀ n, (k.run emitter name fn).bus.ListenerCount n = emitter.ListenerCount n) ∧
    (k.run emitter name fn).bus.MaxListener = emitter.MaxListener ∧
    (∀ n, n ∈ (k.run emitter name fn).bus.EventNames ↔
        n ∈ emitter.EventNames ∨ n = name) ∧
    (name ∈ emitter.EventNames → (k.run emitter name fn).bus = emitter) ∧
    (k.run emitter name fn).sched = [] := by
  rw [Subscription_run_eq] at hret ⊢
  obtain ⟨h1, h2, h3, h4, h5⟩ := addHandler_spec emitter name fn k.once k.atEnd
  have hlt : ¬ emitter.ListenerCount name < emitter.MaxListener := by
    simpa [h1] using hret
  have hreg : ∀ n, (emitter.addHandler name fn k.once k.atEnd).bus.registered n =
      emitter.registered n := by
    intro n
    rw [h3 n, if_neg (fun h => hlt h.2)]
  refine ⟨hreg, fun fuel n => RawListeners_congr fuel _ _ n (hreg n), ?_, h2, h5, ?_, ?_⟩
  · intro n
    rw [ListenerCount_eq, hreg n, ListenerCount_eq]
  · intro hmem
    have hs := (mapGet_isSome_iff emitter.handlers name).mpr hmem
    obtain ⟨handler, hg⟩ := Option.isSome_iff_exists.mp hs
    exact addHandler_fail_of_some emitter name fn k.once k.atEnd handler hg hret
  · rw [h4, if_neg hlt]

/-- C3 amended, at concrete calls: on a bus of limit 1 that holds one listener
for x, `Once` for x fails and the bus is unchanged; `PrependListener` for the
new name y on a bus of limit 0 fails and `RawListeners` of y is the same. -/
theorem C3_failed_subscribe_frame_witness :
    (((NewEventEmitter 1).On "x" 7).bus.Once "x" 8).bus = ((NewEventEmitter 1).On "x" 7).bus ∧
    RawListeners 3 ((NewEventEmitter 0).PrependListener "y" 8).bus "y" =
      RawListeners 3 (NewEventEmitter 0) "y" :=
  ⟨(C3_failed_subscribe_frame ((NewEventEmitter 1).On "x" 7).bus .Once "x" 8
      (by decide)).2.2.2.2.2.1 (by decide),
   (C3_failed_subscribe_frame (NewEventEmitter 0) .PrependListener "y" 8
      (by decide)).2.1 3 "y"⟩

/-- C4: when a subscription succeeds, `RawListeners name` afterwards is the
sequence before with `fn` at the back for On, AddListener and Once, and with
`fn` at the front for PrependListener and PrependOnceListener; the callables
registered before keep their order, and the new callable carries the once flag
exactly for Once and PrependOnceListener. -/
theorem C4_insertion_position (emitter : EventEmitter) (k : Subscription)
    (name : String) (fn : EventCallback) (fuel : Nat)
    (hret : (k.run emitter name fn).ret = true)
    (hfuel : emitter.ListenerCount name < fuel) :
    ∃ (l : List EventCallback) (c : EventCallable),
      RawListeners fuel emitter name = some l ∧
      RawListeners fuel (k.run emitter name fn).bus name = some
        (match k with
          | .On | .AddListener | .Once => l ++ [fn]
          | .PrependListener | .PrependOnceListener => fn :: l) ∧
      c.CallableFunc = fn ∧
      c.OnceFlag = (match k with
          | .Once | .PrependOnceListener => true
          | .On | .AddListener | .PrependListener => false) ∧
      (k.run emitter name fn).bus.registered name =
        (match k with
          | .On | .AddListener | .Once => emitter.registered name ++ [c]
          | .PrependListener | .PrependOnceListener => c :: emitter.registered name) := by
  rw [Subscription_run_eq] at hret ⊢
  obtain ⟨h1, _, h3, _, _⟩ := addHandler_spec emitter name fn k.once k.atEnd
  have hlt : emitter.ListenerCount name < emitter.MaxListener := by simpa [h1] using hret
  have e := h3 name
  rw [if_pos ⟨rfl, hlt⟩] at e
  have hc : (emitter.addHandler name fn k.once k.atEnd).bus.ListenerCount name ≤ fuel := by
    rw [ListenerCount_eq, e]
    rw [ListenerCount_eq] at hfuel
    cases k.atEnd <;> simp <;> omega
  refine ⟨(emitter.registered name).map EventCallable.CallableFunc,
    ⟨emitter.nextAddr, fn, k.once⟩, RawListeners_eq fuel emitter name (by omega), ?_, rfl, ?_, ?_⟩
  · rw [RawListeners_eq fuel _ name hc, e]
    cases k <;> simp [Subscription.atEnd]
  · cases k <;> rfl
  · rw [e]
    cases k <;> simp [Subscription.atEnd]

/-- C4, at concrete calls: on a bus holding the listeners 1, 2 for x, `Once`
with 3 gives 1, 2, 3 and `PrependListener` with 3 gives 3, 1, 2. -/
theorem C4_insertion_position_witness :
    (∃ (l : List EventCallback) (c : EventCallable),
      RawListeners 5 (((NewEventEmitter 3).On "x" 1).bus.On "x" 2).bus "x" = some l ∧
      RawListeners 5 ((((NewEventEmitter 3).On "x" 1).bus.On "x" 2).bus.Once "x" 3).bus "x" =
        some (l ++ [3]) ∧
      c.CallableFunc = 3 ∧ c.OnceFlag = true ∧
      ((((NewEventEmitter 3).On "x" 1).bus.On "x" 2).bus.Once "x" 3).bus.registered "x" =
        (((NewEventEmitter 3).On "x" 1).bus.On "x" 2).bus.registered "x" ++ [c]) ∧
    RawListeners 5 ((((NewEventEmitter 3).On "x" 1).bus.On "x" 2).bus.Once "x" 3).bus "x" =
      some [1, 2, 3] ∧
    RawListeners 5 ((((NewEventEmitter 3).On "x" 1).bus.On "x" 2).bus.PrependListener "x"
      3).bus "x" = some [3, 1, 2] :=
  ⟨C4_insertion_position (((NewEventEmitter 3).On "x" 1).bus.On "x" 2).bus .Once "x" 3 5
      (by decide) (by decide),
   by decide, by decide⟩

/-- C5: `Emit name args` starts exactly one invocation for each callable
registered for `name` at the time of the call, in the order of
`RawListeners name` before the call, each with exactly `args`, and starts
nothing else. -/
theorem C5_emit_dispatch (emitter : EventEmitter) (name : String) (args : List Arg)
    (fuel : Nat) (l : List EventCallback)
    (hraw : RawListeners fuel emitter name = some l) :
    (emitter.Emit name args).sched = l.map (fun f => Task.call f args) ∧
    (emitter.Emit name args).sched.length = emitter.ListenerCount name := by
  obtain ⟨h1, _⟩ := Emit_spec emitter name args
  by_cases hf : emitter.ListenerCount name ≤ fuel
  · rw [RawListeners_eq fuel emitter name hf] at hraw
    cases hraw
    rw [h1, ListenerCount_eq]
    simp
  · rw [RawListeners_short fuel emitter name (by omega)] at hraw
    cases hraw

/-- C5, at the scenario of the test: the listeners 1, 2, 3 registered in this
order for x; `Emit` with the argument 5 starts them in this order with that
argument, and in whatever order the three invocations run, a counter at 0 ends
at 6. -/
theorem C5_emit_dispatch_witness :
    RawListeners 3 ((((NewEventEmitter 3).On "x" 1).bus.On "x" 2).bus.On "x" 3).bus "x" =
      some [1, 2, 3] ∧
    (((((NewEventEmitter 3).On "x" 1).bus.On "x" 2).bus.On "x" 3).bus.Emit "x"
      [Arg.int 5]).sched =
      [Task.call 1 [Arg.int 5], Task.call 2 [Arg.int 5], Task.call 3 [Arg.int 5]] ∧
    (∀ p : List Task, p.Perm (((((NewEventEmitter 3).On "x" 1).bus.On "x" 2).bus.On "x"
      3).bus.Emit "x" [Arg.int 5]).sched → runIncr p 0 = 6) :=
  ⟨by decide,
   (C5_emit_dispatch ((((NewEventEmitter 3).On "x" 1).bus.On "x" 2).bus.On "x" 3).bus "x"
      [Arg.int 5] 3 [1, 2, 3] (by decide)).1,
   fun p hp => by rw [runIncr_perm hp]; decide⟩

/-- C6: after `Emit name args` the callables registered for `name` are the
ones registered before without the once-flagged ones, in the same order, and
`RawListeners name` returns their functions; a following `Emit` on the name
starts exactly these, so none of the once-flagged callables again.  On a name
y without listeners and with a limit of at least 1, `Once y f` succeeds, the
two following `Emit y` calls start `f` exactly once in total, and
`ListenerCount y` is 0 after the first of them. -/
theorem C6_once_semantics (emitter : EventEmitter) (name : String) (args : List Arg) :
    (emitter.Emit name args).bus.registered name =
        (emitter.registered name).filter (fun c => !c.OnceFlag) ∧
    (∀ fuel, emitter.ListenerCount name ≤ fuel →
        RawListeners fuel (emitter.Emit name args).bus name =
          some (((emitter.registered name).filter (fun c => !c.OnceFlag)).map
            EventCallable.CallableFunc)) ∧
    (∀ args2, ((emitter.Emit name args).bus.Emit name args2).sched =
        ((emitter.registered name).filter (fun c => !c.OnceFlag)).map
          (fun c => Task.call c.CallableFunc args2)) ∧
    (∀ (f : EventCallback) (args2 : List Arg),
        emitter.ListenerCount name = 0 → 1 ≤ emitter.MaxListener →
        (emitter.Once name f).ret = true ∧
        ((emitter.Once name f).bus.Emit name args).sched ++
          (((emitter.Once name f).bus.Emit name args).bus.Emit name args2).sched =
            [Task.call f args] ∧
        ((emitter.Once name f).bus.Emit name args).bus.ListenerCount name = 0) := by
  obtain ⟨_, h2, _⟩ := Emit_spec emitter name args
  have hreg := h2 name
  rw [if_pos rfl] at hreg
  refine ⟨hreg, ?_, ?_, ?_⟩
  · intro fuel hf
    rw [← hreg]
    apply RawListeners_eq
    rw [ListenerCount_eq, hreg]
    rw [ListenerCount_eq] at hf
    exact le_trans (List.length_filter_le _ _) hf
  · intro args2
    rw [(Emit_spec _ name args2).1, hreg]
  · intro f args2 h0 hm
    obtain ⟨a1, _, a3, _, _⟩ := addHandler_spec emitter name f true true
    have hlt : emitter.ListenerCount name < emitter.MaxListener := by omega
    have hr0 : emitter.registered name = [] := by
      rw [ListenerCount_eq] at h0
      exact List.length_eq_zero.mp h0
    have ereg : (emitter.Once name f).bus.registered name = [⟨emitter.nextAddr, f, true⟩] := by
      have := a3 name
      rw [if_pos ⟨rfl, hlt⟩, hr0] at this
      simpa [Once] using this
    obtain ⟨b1, b2, _⟩ := Emit_spec (emitter.Once name f).bus name args
    have breg := b2 name
    rw [if_pos rfl, ereg] at breg
    obtain ⟨c1, _, _⟩ := Emit_spec ((emitter.Once name f).bus.Emit name args).bus name args2
    refine ⟨by simp [Once, a1, hlt], ?_, ?_⟩
    · rw [b1, c1, ereg, breg]
      simp
    · rw [ListenerCount_eq, breg]
      simp

/-- C6, at concrete calls: a bus holding for x the listener 1, the once
listener 2 and the listener 3 keeps 1 and 3 after `Emit`; and on a fresh bus of
limit 1, `Once y 9` followed by two `Emit y` starts 9 once. -/
theorem C6_once_semantics_witness :
    RawListeners 3 (((((NewEventEmitter 3).On "x" 1).bus.Once "x" 2).bus.On "x" 3).bus.Emit
      "x" []).bus "x" = some [1, 3] ∧
    (((NewEventEmitter 1).Once "y" 9).ret = true ∧
      (((NewEventEmitter 1).Once "y" 9).bus.Emit "y" [Arg.bool true]).sched ++
        ((((NewEventEmitter 1).Once "y" 9).bus.Emit "y" [Arg.bool true]).bus.Emit "y"
          [Arg.bool true]).sched = [Task.call 9 [Arg.bool true]] ∧
      (((NewEventEmitter 1).Once "y" 9).bus.Emit "y" [Arg.bool true]).bus.ListenerCount "y"
        = 0) :=
  ⟨by decide,
   (C6_once_semantics (NewEventEmitter 1) "y" [Arg.bool true]).2.2.2 9 [Arg.bool true]
      (by decide) (by decide)⟩

/-- C7: when some callable registered for `name` wraps `fn`,
`RemoveListener name fn` returns true and deletes the front-most callable that
wraps `fn` and nothing else: the registered sequence is `pre ++ c :: post` with
`c` wrapping `fn` and nothing in `pre` wrapping it, and afterwards it is
`pre ++ post`, whatever `post` holds; `RawListeners` shows the same, and
`ListenerCount name` drops by exactly 1. -/
theorem C7_remove_listener (emitter : EventEmitter) (name : String) (fn : EventCallback)
    (h : ∃ c ∈ emitter.registered name, c.CallableFunc = fn) :
    (emitter.RemoveListener name fn).ret = true ∧
    (∃ (pre : List EventCallable) (c : EventCallable) (post : List EventCallable),
      emitter.registered name = pre ++ c :: post ∧
      c.CallableFunc = fn ∧ (∀ x ∈ pre, x.CallableFunc ≠ fn) ∧
      (emitter.RemoveListener name fn).bus.registered name = pre ++ post ∧
      (∀ fuel, emitter.ListenerCount name ≤ fuel →
        RawListeners fuel emitter name = some
          (pre.map EventCallable.CallableFunc ++ fn :: post.map EventCallable.CallableFunc) ∧
        RawListeners fuel (emitter.RemoveListener name fn).bus name = some
          (pre.map EventCallable.CallableFunc ++ post.map EventCallable.CallableFunc))) ∧
    (emitter.RemoveListener name fn).bus.ListenerCount name + 1 =
      emitter.ListenerCount name := by
  obtain ⟨c0, hc0, hfn0⟩ := h
  obtain ⟨r1, r2, _⟩ := RemoveListener_spec emitter name fn
  have hreg := r2 name
  rw [if_pos rfl] at hreg
  obtain ⟨c, pre, post, hpre, hc, hsplit, herase⟩ :=
    List.exists_of_eraseP (p := fun c => decide (c.CallableFunc = fn)) hc0 (by simpa using hfn0)
  have hcfn : c.CallableFunc = fn := by simpa using hc
  rw [herase] at hreg
  have hlen : (emitter.RemoveListener name fn).bus.ListenerCount name + 1 =
      emitter.ListenerCount name := by
    rw [ListenerCount_eq, ListenerCount_eq, hreg, hsplit]
    simp
    omega
  refine ⟨?_, ⟨pre, c, post, hsplit, hcfn, fun x hx => by simpa using hpre x hx, hreg, ?_⟩,
    hlen⟩
  · rw [r1]
    exact List.any_eq_true.mpr ⟨c0, hc0, by simpa using hfn0⟩
  · intro fuel hf
    constructor
    · rw [RawListeners_eq fuel emitter name hf, hsplit]
      simp [hcfn]
    · rw [RawListeners_eq fuel _ name (by omega), hreg]
      simp

/-- C7, at concrete calls: with the listeners 1, 2, the once listener 1 and
the listener 1 again registered for x, `RemoveListener x 1` leaves 2, 1, 1. -/
theorem C7_remove_listener_witness :
    (∃ c ∈ (((((NewEventEmitter 4).On "x" 1).bus.On "x" 2).bus.Once "x" 1).bus.On "x"
        1).bus.registered "x", c.CallableFunc = 1) ∧
    ((((((NewEventEmitter 4).On "x" 1).bus.On "x" 2).bus.Once "x" 1).bus.On "x"
        1).bus.RemoveListener "x" 1).ret = true ∧
    RawListeners 4 ((((((NewEventEmitter 4).On "x" 1).bus.On "x" 2).bus.Once "x" 1).bus.On "x"
        1).bus.RemoveListener "x" 1).bus "x" = some [2, 1, 1] ∧
    ((((((NewEventEmitter 4).On "x" 1).bus.On "x" 2).bus.Once "x" 1).bus.On "x"
        1).bus.RemoveListener "x" 1).bus.registered "x" =
      [⟨1, 2, false⟩, ⟨2, 1, true⟩, ⟨3, 1, false⟩] :=
  ⟨⟨⟨0, 1, false⟩, by decide, rfl⟩,
   (C7_remove_listener (((((NewEventEmitter 4).On "x" 1).bus.On "x" 2).bus.Once "x" 1).bus.On
      "x" 1).bus "x" 1 ⟨⟨0, 1, false⟩, by decide, rfl⟩).1,
   by decide, by decide⟩

/-- C8: `RemoveListener name fn` returns false exactly when `name` has no
registry or no callable registered for `name` wraps `fn`; when it returns
false the bus is unchanged and nothing is scheduled; and when `fn` is wrapped
by exactly one callable registered for `name`, the first `RemoveListener`
returns true and a second one returns false. -/
theorem C8_remove_listener_failure (emitter : EventEmitter) (name : String)
    (fn : EventCallback) :
    ((emitter.RemoveListener name fn).ret = false ↔
        (name ∉ emitter.EventNames ∨
          ∀ c ∈ emitter.registered name, c.CallableFunc ≠ fn)) ∧
    ((emitter.RemoveListener name fn).ret = false →
        (emitter.RemoveListener name fn).bus = emitter ∧
        (emitter.RemoveListener name fn).sched = []) ∧
    (((emitter.registered name).map EventCallable.CallableFunc).count fn = 1 →
        (emitter.RemoveListener name fn).ret = true ∧
        ((emitter.RemoveListener name fn).bus.RemoveListener name fn).ret = false) := by
  obtain ⟨r1, r2, r3, r4, _⟩ := RemoveListener_spec emitter name fn
  have hiff : (emitter.RemoveListener name fn).ret = false ↔
      ∀ c ∈ emitter.registered name, c.CallableFunc ≠ fn := by
    rw [r1]
    constructor
    · intro h c hc heq
      have : (emitter.registered name).any (fun c => decide (c.CallableFunc = fn)) = true :=
        List.any_eq_true.mpr ⟨c, hc, by simpa using heq⟩
      rw [h] at this
      cases this
    · intro h
      rw [Bool.eq_false_iff]
      intro hany
      obtain ⟨c, hc, hp⟩ := List.any_eq_true.mp hany
      exact h c hc (by simpa using hp)
  refine ⟨?_, ?_, ?_⟩
  · rw [hiff]
    constructor
    · exact Or.inr
    · rintro (h | h)
      · have hnone : mapGet emitter.handlers name = none := by
          cases hg : mapGet emitter.handlers name with
          | none => rfl
          | some handler => exact absurd (mem_EventNames_of_mapGet _ _ _ hg) h
        intro c hc
        simp [registered, hnone] at hc
      · exact h
  · intro h
    refine ⟨r4 h, ?_⟩
    rw [r3, h]
    simp
  · intro hcount
    have hmem : fn ∈ (emitter.registered name).map EventCallable.CallableFunc :=
      List.count_pos_iff.mp (by omega)
    obtain ⟨c0, hc0, hfn0⟩ := List.mem_map.mp hmem
    obtain ⟨c, pre, post, hpre, hc, hsplit, herase⟩ :=
      List.exists_of_eraseP (p := fun c => decide (c.CallableFunc = fn)) hc0
        (by simpa using hfn0)
    have hcfn : c.CallableFunc = fn := by simpa using hc
    have hreg := r2 name
    rw [if_pos rfl, herase] at hreg
    have hpost : fn ∉ post.map EventCallable.CallableFunc := by
      rw [hsplit] at hcount
      simp only [List.map_append, List.map_cons, List.count_append, List.count_cons, hcfn,
        beq_self_eq_true, if_true] at hcount
      exact List.count_eq_zero.mp (by omega)
    constructor
    · rw [r1]
      exact List.any_eq_true.mpr ⟨c0, hc0, by simpa using hfn0⟩
    · rw [(RemoveListener_spec _ name fn).1, hreg, Bool.eq_false_iff]
      intro hany
      obtain ⟨x, hx, hp⟩ := List.any_eq_true.mp hany
      have hxfn : x.CallableFunc = fn := by simpa using hp
      rcases List.mem_append.mp hx with h | h
      · exact hpre x h hp
      · exact hpost (hxfn ▸ List.mem_map_of_mem _ h)

/-- C8, at concrete calls: on a bus holding the listeners 1 and 2 for x,
`RemoveListener x 3` and `RemoveListener y 1` change nothing, and after
`RemoveListener x 1` a second `RemoveListener x 1` returns false. -/
theorem C8_remove_listener_failure_witness :
    ((((NewEventEmitter 3).On "x" 1).bus.On "x" 2).bus.RemoveListener "x" 3).bus =
      (((NewEventEmitter 3).On "x" 1).bus.On "x" 2).bus ∧
    ((((NewEventEmitter 3).On "x" 1).bus.On "x" 2).bus.RemoveListener "y" 1).ret = false ∧
    (((((NewEventEmitter 3).On "x" 1).bus.On "x" 2).bus.RemoveListener "x" 1).ret = true ∧
      (((((NewEventEmitter 3).On "x" 1).bus.On "x" 2).bus.RemoveListener "x" 1).bus.RemoveListener
        "x" 1).ret = false) :=
  ⟨((C8_remove_listener_failure (((NewEventEmitter 3).On "x" 1).bus.On "x" 2).bus "x" 3).2.1
      (by decide)).1,
   (C8_remove_listener_failure (((NewEventEmitter 3).On "x" 1).bus.On "x" 2).bus "y" 1).1.mpr
      (Or.inl (by decide)),
   (C8_remove_listener_failure (((NewEventEmitter 3).On "x" 1).bus.On "x" 2).bus "x" 1).2.2
      (by decide)⟩

/-- C9: with fuel for every registered callable `RemoveAllListeners name`
returns, and afterwards `ListenerCount name` is 0, `RawListeners name` is
empty and `Emit name args` starts nothing, whatever was registered before. -/
theorem C9_remove_all_listeners (emitter : EventEmitter) (name : String) (fuel : Nat)
    (hfuel : emitter.ListenerCount name ≤ fuel) :
    ∃ o : Outcome Unit, RemoveAllListeners fuel emitter name = some o ∧
      o.bus.ListenerCount name = 0 ∧
      (∀ fuel2, RawListeners fuel2 o.bus name = some []) ∧
      (∀ args, (o.bus.Emit name args).sched = []) ∧
      (∀ args, (o.bus.Emit name args).bus.ListenerCount name = 0) := by
  obtain ⟨o, e1, _, e3, _⟩ := RemoveAllListeners_spec fuel emitter name hfuel
  have hreg := e3 name
  rw [if_pos rfl] at hreg
  have hc : o.bus.ListenerCount name = 0 := by rw [ListenerCount_eq, hreg]; rfl
  refine ⟨o, e1, hc, ?_, ?_, ?_⟩
  · intro fuel2
    rw [RawListeners_eq fuel2 o.bus name (by omega), hreg]
    rfl
  · intro args
    rw [(Emit_spec o.bus name args).1, hreg]
    rfl
  · intro args
    have := (Emit_spec o.bus name args).2.1 name
    rw [if_pos rfl, hreg] at this
    rw [ListenerCount_eq, this]
    rfl

/-- C9, at concrete calls: on a bus holding the listener 1, the once listener
2 and the listener 3 for x, `RemoveAllListeners x` with fuel 3 returns a bus
with no listener for x, on which `Emit x` starts nothing. -/
theorem C9_remove_all_listeners_witness :
    ((((NewEventEmitter 3).On "x" 1).bus.Once "x" 2).bus.PrependListener "x" 3).bus.ListenerCount
      "x" ≤ 3 ∧
    ∃ o : Outcome Unit,
      RemoveAllListeners 3
        ((((NewEventEmitter 3).On "x" 1).bus.Once "x" 2).bus.PrependListener "x" 3).bus "x" =
          some o ∧
      o.bus.ListenerCount "x" = 0 ∧
      (∀ fuel2, RawListeners fuel2 o.bus "x" = some []) ∧
      (∀ args, (o.bus.Emit "x" args).sched = []) ∧
      (∀ args, (o.bus.Emit "x" args).bus.ListenerCount "x" = 0) :=
  ⟨by decide,
   C9_remove_all_listeners
     ((((NewEventEmitter 3).On "x" 1).bus.Once "x" 2).bus.PrependListener "x" 3).bus "x" 3
     (by decide)⟩

/-- C10: for every sequence of subscription and `RemoveListener` calls made
on a bus fresh from `NewEventEmitter m`, with `Emit` calls allowed in between
on other names only, `ListenerCount name` at the end equals the number of
subscription calls on `name` that returned true minus the number of
`RemoveListener` calls on `name` that returned true; and after `n`
subscriptions on `name` alone it is `min n m`. -/
theorem C10_listener_accounting (m : Nat) (name : String) (reqs : List Request)
    (h : ∀ r ∈ reqs, r.emitsOn name = false) :
    removedCount name reqs (NewEventEmitter m) ≤ subscribedCount name reqs (NewEventEmitter m) ∧
    (runRequests reqs (NewEventEmitter m)).ListenerCount name =
      subscribedCount name reqs (NewEventEmitter m) -
        removedCount name reqs (NewEventEmitter m) ∧
    (∀ subs : List (Subscription × EventCallback),
      (runRequests (subs.map (fun p => Request.subscribe p.1 name p.2))
        (NewEventEmitter m)).ListenerCount name = min subs.length m) := by
  have h0 : (NewEventEmitter m).ListenerCount name = 0 := by
    simp [NewEventEmitter, ListenerCount, mapGet]
  have hacc := runRequests_accounting name reqs (NewEventEmitter m) h
  rw [h0] at hacc
  refine ⟨by omega, by omega, ?_⟩
  intro subs
  have := (runRequests_subscriptions name subs (NewEventEmitter m) (by rw [h0]; omega)).1
  rw [h0] at this
  simpa [NewEventEmitter] using this

/-- C10, at a concrete run on a bus of limit 2: three subscriptions on x (the
third fails), an `Emit` on another name, a `RemoveListener x 1` that succeeds
and a `RemoveListener x 9` that fails; two subscriptions and one removal
succeeded and one listener is left. -/
theorem C10_listener_accounting_witness :
    (∀ r ∈ [Request.subscribe .On "x" 1, Request.subscribe .Once "x" 2,
        Request.subscribe .PrependListener "x" 3, Request.emit "newListener" [],
        Request.removeListener "x" 1, Request.removeListener "x" 9],
      r.emitsOn "x" = false) ∧
    subscribedCount "x" [Request.subscribe .On "x" 1, Request.subscribe .Once "x" 2,
        Request.subscribe .PrependListener "x" 3, Request.emit "newListener" [],
        Request.removeListener "x" 1, Request.removeListener "x" 9] (NewEventEmitter 2) = 2 ∧
    removedCount "x" [Request.subscribe .On "x" 1, Request.subscribe .Once "x" 2,
        Request.subscribe .PrependListener "x" 3, Request.emit "newListener" [],
        Request.removeListener "x" 1, Request.removeListener "x" 9] (NewEventEmitter 2) = 1 ∧
    (runRequests [Request.subscribe .On "x" 1, Request.subscribe .Once "x" 2,
        Request.subscribe .PrependListener "x" 3, Request.emit "newListener" [],
        Request.removeListener "x" 1, Request.removeListener "x" 9]
        (NewEventEmitter 2)).ListenerCount "x" =
      subscribedCount "x" [Request.subscribe .On "x" 1, Request.subscribe .Once "x" 2,
        Request.subscribe .PrependListener "x" 3, Request.emit "newListener" [],
        Request.removeListener "x" 1, Request.removeListener "x" 9] (NewEventEmitter 2) -
      removedCount "x" [Request.subscribe .On "x" 1, Request.subscribe .Once "x" 2,
        Request.subscribe .PrependListener "x" 3, Request.emit "newListener" [],
        Request.removeListener "x" 1, Request.removeListener "x" 9] (NewEventEmitter 2) :=
  ⟨by decide, by decide, by decide,
   (C10_listener_accounting 2 "x" [Request.subscribe .On "x" 1, Request.subscribe .Once "x" 2,
        Request.subscribe .PrependListener "x" 3, Request.emit "newListener" [],
        Request.removeListener "x" 1, Request.removeListener "x" 9] (by decide)).2.1⟩

/-- C11: a subscription call that returns true schedules exactly one task, the
emission of newListener with the arguments `name` and `fn`, and nothing else;
whenever that emission runs it is the call of `Emit` and starts one invocation
with these arguments for every callable registered for newListener then; a
subscription call that returns false schedules nothing. -/
theorem C11_subscription_notification (emitter : EventEmitter) (k : Subscription)
    (name : String) (fn : EventCallback) :
    ((k.run emitter name fn).ret = true →
        (k.run emitter name fn).sched =
          [Task.emit "newListener" [Arg.str name, Arg.fn fn]]) ∧
    ((k.run emitter name fn).ret = false → (k.run emitter name fn).sched = []) ∧
    (∀ later : EventEmitter,
        runTask (Task.emit "newListener" [Arg.str name, Arg.fn fn]) later =
          later.Emit "newListener" [Arg.str name, Arg.fn fn] ∧
        (runTask (Task.emit "newListener" [Arg.str name, Arg.fn fn]) later).sched =
          (later.registered "newListener").map
            (fun c => Task.call c.CallableFunc [Arg.str name, Arg.fn fn])) := by
  have hs := addHandler_spec emitter name fn k.once k.atEnd
  rw [← Subscription_run_eq] at hs
  obtain ⟨h1, _, _, h4, _⟩ := hs
  refine ⟨?_, ?_, ?_⟩
  · intro hret
    have hlt : emitter.ListenerCount name < emitter.MaxListener := by simpa [h1] using hret
    rw [h4, if_pos hlt]
  · intro hret
    have hlt : ¬ emitter.ListenerCount name < emitter.MaxListener := by
      simpa [h1] using hret
    rw [h4, if_neg hlt]
  · intro later
    exact ⟨rfl, (Emit_spec later "newListener" _).1⟩

/-- C11, at concrete calls: on a bus of limit 1 holding the listener 5 for
newListener, `On x 7` schedules the emission of newListener with x and 7, the
following `Once x 8` schedules nothing, and the emission run on the bus after
the first call invokes 5 with x and 7. -/
theorem C11_subscription_notification_witness :
    (((NewEventEmitter 1).On "newListener" 5).bus.On "x" 7).sched =
      [Task.emit "newListener" [Arg.str "x", Arg.fn 7]] ∧
    ((((NewEventEmitter 1).On "newListener" 5).bus.On "x" 7).bus.Once "x" 8).sched = [] ∧
    (runTask (Task.emit "newListener" [Arg.str "x", Arg.fn 7])
        (((NewEventEmitter 1).On "newListener" 5).bus.On "x" 7).bus).sched =
      [Task.call 5 [Arg.str "x", Arg.fn 7]] :=
  ⟨(C11_subscription_notification ((NewEventEmitter 1).On "newListener" 5).bus .On "x" 7).1
      (by decide),
   (C11_subscription_notification (((NewEventEmitter 1).On "newListener" 5).bus.On "x" 7).bus
      .Once "x" 8).2.1 (by decide),
   by decide⟩

/-- C12: `Emit` on a name that has no registry starts nothing and leaves the
bus as it is: `EventNames`, the registered callables and `RawListeners` of
every name are the same, and the name still has no registry. -/
theorem C12_emit_unknown_name (emitter : EventEmitter) (name : String) (args : List Arg)
    (h : name ∉ emitter.EventNames) :
    (emitter.Emit name args).sched = [] ∧
    (emitter.Emit name args).bus = emitter ∧
    (emitter.Emit name args).bus.EventNames = emitter.EventNames ∧
    (∀ n, (emitter.Emit name args).bus.registered n = emitter.registered n) ∧
    (∀ fuel n, RawListeners fuel (emitter.Emit name args).bus n =
        RawListeners fuel emitter n) ∧
    name ∉ (emitter.Emit name args).bus.EventNames := by
  have hnone : mapGet emitter.handlers name = none := by
    cases hg : mapGet emitter.handlers name with
    | none => rfl
    | some handler => exact absurd (mem_EventNames_of_mapGet _ _ _ hg) h
  obtain ⟨e1, e2⟩ := Emit_of_none emitter name args hnone
  rw [e1]
  exact ⟨e2, rfl, rfl, fun _ => rfl, fun _ _ => rfl, h⟩

/-- C12, at a concrete call: on a bus holding a listener for x, `Emit y`
starts nothing and returns the same bus. -/
theorem C12_emit_unknown_name_witness :
    "y" ∉ ((NewEventEmitter 3).On "x" 1).bus.EventNames ∧
    (((NewEventEmitter 3).On "x" 1).bus.Emit "y" [Arg.int 5]).sched = [] ∧
    (((NewEventEmitter 3).On "x" 1).bus.Emit "y" [Arg.int 5]).bus =
      ((NewEventEmitter 3).On "x" 1).bus :=
  ⟨by decide,
   (C12_emit_unknown_name ((NewEventEmitter 3).On "x" 1).bus "y" [Arg.int 5] (by decide)).1,
   (C12_emit_unknown_name ((NewEventEmitter 3).On "x" 1).bus "y" [Arg.int 5] (by decide)).2.1⟩

/-- C13: every name in `EventNames` before a call of a subscription method, of
`RemoveListener`, of `RemoveAllListeners` or of `Emit` is in `EventNames`
afterwards; and the name stays there with `ListenerCount` 0 when the call
empties its registry: `RemoveAllListeners` on it, `RemoveListener` of the only
callable registered for it, or `Emit` on it when every callable registered for
it is flagged once. -/
theorem C13_registries_never_destroyed (emitter : EventEmitter) (n : String)
    (hn : n ∈ emitter.EventNames) :
    (∀ (k : Subscription) name cb, n ∈ (k.run emitter name cb).bus.EventNames) ∧
    (∀ name cb, n ∈ (emitter.RemoveListener name cb).bus.EventNames) ∧
    (∀ fuel name o, RemoveAllListeners fuel emitter name = some o → n ∈ o.bus.EventNames) ∧
    (∀ name args, n ∈ (emitter.Emit name args).bus.EventNames) ∧
    (∀ fuel o, RemoveAllListeners fuel emitter n = some o →
        n ∈ o.bus.EventNames ∧ o.bus.ListenerCount n = 0) ∧
    (∀ c, emitter.registered n = [c] →
        n ∈ (emitter.RemoveListener n c.CallableFunc).bus.EventNames ∧
        (emitter.RemoveListener n c.CallableFunc).bus.ListenerCount n = 0) ∧
    (∀ args, (∀ c ∈ emitter.registered n, c.OnceFlag = true) →
        n ∈ (emitter.Emit n args).bus.EventNames ∧
        (emitter.Emit n args).bus.ListenerCount n = 0) := by
  refine ⟨?_, ?_, ?_, ?_, ?_, ?_, ?_⟩
  · intro k name cb
    have hs := addHandler_spec emitter name cb k.once k.atEnd
    rw [← Subscription_run_eq] at hs
    exact (hs.2.2.2.2 n).mpr (Or.inl hn)
  · intro name cb
    rw [(RemoveListener_spec emitter name cb).2.2.2.2.2.1]
    exact hn
  · intro fuel name o h
    rw [(RemoveAllListeners_some fuel emitter name o h).2.2.2.2.1]
    exact hn
  · intro name args
    rw [(Emit_spec emitter name args).2.2.2.1]
    exact hn
  · intro fuel o h
    obtain ⟨_, _, e3, _, e5, _⟩ := RemoveAllListeners_some fuel emitter n o h
    refine ⟨e5 ▸ hn, ?_⟩
    rw [ListenerCount_eq, e3 n, if_pos rfl]
    rfl
  · intro c hc
    obtain ⟨_, r2, _, _, _, r6, _⟩ := RemoveListener_spec emitter n c.CallableFunc
    refine ⟨r6 ▸ hn, ?_⟩
    rw [ListenerCount_eq, r2 n, if_pos rfl, hc]
    simp
  · intro args hall
    obtain ⟨_, e2, _, e4, _⟩ := Emit_spec emitter n args
    refine ⟨e4 ▸ hn, ?_⟩
    rw [ListenerCount_eq, e2 n, if_pos rfl, List.length_eq_zero, List.filter_eq_nil_iff]
    intro c hc
    simp [hall c hc]

/-- C13, at concrete calls: the name y, whose only listener is flagged once,
is still in `EventNames` with count 0 after `Emit y`, and the name x is still
there after `RemoveAllListeners x`. -/
theorem C13_registries_never_destroyed_witness :
    "y" ∈ (((NewEventEmitter 3).On "x" 1).bus.Once "y" 2).bus.EventNames ∧
    ("y" ∈ ((((NewEventEmitter 3).On "x" 1).bus.Once "y" 2).bus.Emit "y" []).bus.EventNames ∧
      ((((NewEventEmitter 3).On "x" 1).bus.Once "y" 2).bus.Emit "y" []).bus.ListenerCount "y"
        = 0) ∧
    (∀ o, RemoveAllListeners 1 ((NewEventEmitter 3).On "x" 1).bus "x" = some o →
      "x" ∈ o.bus.EventNames ∧ o.bus.ListenerCount "x" = 0) :=
  ⟨by decide,
   (C13_registries_never_destroyed (((NewEventEmitter 3).On "x" 1).bus.Once "y" 2).bus "y"
      (by decide)).2.2.2.2.2.2 [] (by decide),
   (C13_registries_never_destroyed ((NewEventEmitter 3).On "x" 1).bus "x"
      (by decide)).2.2.2.2.1 1⟩

/-- C14: for names `a` and `b` that differ, a subscription, `RemoveListener`,
`RemoveAllListeners` or `Emit` on `a` leaves the callables registered for `b`,
`RawListeners b` and `ListenerCount b` as they were; and whether a
subscription on `a` succeeds is decided by `ListenerCount a` and `MaxListener`
alone: two buses that agree on these two give the same answer, whatever they
hold under other names. -/
theorem C14_per_name_independence (emitter : EventEmitter) (a b : String) (hab : a ≠ b) :
    (∀ (k : Subscription) cb,
        (k.run emitter a cb).bus.registered b = emitter.registered b ∧
        (∀ fuel, RawListeners fuel (k.run emitter a cb).bus b = RawListeners fuel emitter b) ∧
        (k.run emitter a cb).bus.ListenerCount b = emitter.ListenerCount b) ∧
    (∀ cb,
        (emitter.RemoveListener a cb).bus.registered b = emitter.registered b ∧
        (∀ fuel, RawListeners fuel (emitter.RemoveListener a cb).bus b =
          RawListeners fuel emitter b) ∧
        (emitter.RemoveListener a cb).bus.ListenerCount b = emitter.ListenerCount b) ∧
    (∀ fuel o, RemoveAllListeners fuel emitter a = some o →
        o.bus.registered b = emitter.registered b ∧
        (∀ fuel2, RawListeners fuel2 o.bus b = RawListeners fuel2 emitter b) ∧
        o.bus.ListenerCount b = emitter.ListenerCount b) ∧
    (∀ args,
        ((emitter.Emit a args).bus.registered b = emitter.registered b) ∧
        (∀ fuel, RawListeners fuel (emitter.Emit a args).bus b = RawListeners fuel emitter b) ∧
        (emitter.Emit a args).bus.ListenerCount b = emitter.ListenerCount b) ∧
    (∀ (k : Subscription) cb (other : EventEmitter),
        other.ListenerCount a = emitter.ListenerCount a →
        other.MaxListener = emitter.MaxListener →
        (k.run other a cb).ret = (k.run emitter a cb).ret) := by
  have hba : ¬ b = a := fun h => hab h.symm
  have frame : ∀ e2 : EventEmitter, e2.registered b = emitter.registered b →
      e2.registered b = emitter.registered b ∧
      (∀ fuel, RawListeners fuel e2 b = RawListeners fuel emitter b) ∧
      e2.ListenerCount b = emitter.ListenerCount b := by
    intro e2 h
    refine ⟨h, fun fuel => RawListeners_congr fuel _ _ b h, ?_⟩
    rw [ListenerCount_eq, h, ListenerCount_eq]
  refine ⟨?_, ?_, ?_, ?_, ?_⟩
  · intro k cb
    have hs := addHandler_spec emitter a cb k.once k.atEnd
    rw [← Subscription_run_eq] at hs
    apply frame
    rw [hs.2.2.1 b, if_neg (fun h => hba h.1)]
  · intro cb
    apply frame
    rw [(RemoveListener_spec emitter a cb).2.1 b, if_neg hba]
  · intro fuel o h
    apply frame
    rw [(RemoveAllListeners_some fuel emitter a o h).2.2.1 b, if_neg hba]
  · intro args
    apply frame
    rw [(Emit_spec emitter a args).2.1 b, if_neg hba]
  · intro k cb other h1 h2
    rw [(Subscription_run_ret other k a cb).1, (Subscription_run_ret emitter k a cb).1, h1, h2]

/-- C14, at concrete calls: on a bus of limit 1 holding the listener 1 for x,
`On y 2` succeeds as on a fresh bus of limit 1, and the listeners of x are the
same after it and after `Emit y`. -/
theorem C14_per_name_independence_witness :
    "y" ≠ "x" ∧
    (((NewEventEmitter 1).On "x" 1).bus.On "y" 2).bus.registered "x" =
      ((NewEventEmitter 1).On "x" 1).bus.registered "x" ∧
    (((NewEventEmitter 1).On "x" 1).bus.On "y" 2).ret = ((NewEventEmitter 1).On "y" 2).ret ∧
    (((NewEventEmitter 1).On "x" 1).bus.On "y" 2).ret = true :=
  ⟨by decide,
   ((C14_per_name_independence ((NewEventEmitter 1).On "x" 1).bus "y" "x" (by decide)).1
      .On 2).1,
   (C14_per_name_independence (NewEventEmitter 1) "y" "x" (by decide)).2.2.2.2 .On 2
      ((NewEventEmitter 1).On "x" 1).bus (by decide) (by decide),
   by decide⟩

/-- C16: with fuel for every registered callable, `RemoveAllListeners name`
on a registry holding c1..ck schedules exactly k tasks, the i-th being the
emission of removeListener with the arguments `name` and the function of ci,
and empties the registry; for a name without a registry it schedules nothing
and returns the bus unchanged, with any fuel. -/
theorem C16_remove_all_notifications (emitter : EventEmitter) (name : String) :
    (∀ fuel, emitter.ListenerCount name ≤ fuel →
      ∃ o : Outcome Unit, RemoveAllListeners fuel emitter name = some o ∧
        o.sched = (emitter.registered name).map (fun c =>
          Task.emit "removeListener" [Arg.str name, Arg.fn c.CallableFunc]) ∧
        o.sched.length = emitter.ListenerCount name ∧
        o.bus.registered name = []) ∧
    (name ∉ emitter.EventNames →
      ∀ fuel, ∃ o : Outcome Unit, RemoveAllListeners fuel emitter name = some o ∧
        o.sched = [] ∧ o.bus = emitter) := by
  constructor
  · intro fuel hf
    obtain ⟨o, e1, e2, e3, _⟩ := RemoveAllListeners_spec fuel emitter name hf
    refine ⟨o, e1, e2, ?_, ?_⟩
    · rw [e2, List.length_map, ListenerCount_eq]
    · rw [e3 name, if_pos rfl]
  · intro hn fuel
    have hnone := mapGet_none_of_not_mem emitter name hn
    have hc : emitter.ListenerCount name ≤ fuel := by simp [ListenerCount, hnone]
    obtain ⟨o, e1, e2, _, _, _, _, e7⟩ := RemoveAllListeners_spec fuel emitter name hc
    refine ⟨o, e1, ?_, e7 hnone⟩
    rw [e2]
    simp [registered, hnone]

/-- C16, at concrete calls: with the listener 3 in front of the listener 1 and
the once listener 2 for x, `RemoveAllListeners x` schedules the emissions of
removeListener for 3, 1, 2 in this order; on the name y, which has no
registry, it schedules nothing. -/
theorem C16_remove_all_notifications_witness :
    (∃ o : Outcome Unit,
      RemoveAllListeners 3
        ((((NewEventEmitter 3).On "x" 1).bus.Once "x" 2).bus.PrependListener "x" 3).bus "x" =
          some o ∧
      o.sched = [Task.emit "removeListener" [Arg.str "x", Arg.fn 3],
        Task.emit "removeListener" [Arg.str "x", Arg.fn 1],
        Task.emit "removeListener" [Arg.str "x", Arg.fn 2]]) ∧
    (∃ o : Outcome Unit,
      RemoveAllListeners 0 ((NewEventEmitter 3).On "x" 1).bus "y" = some o ∧
      o.sched = [] ∧ o.bus = ((NewEventEmitter 3).On "x" 1).bus) :=
  ⟨by
    obtain ⟨o, e1, e2, _, _⟩ := (C16_remove_all_notifications
      ((((NewEventEmitter 3).On "x" 1).bus.Once "x" 2).bus.PrependListener "x" 3).bus "x").1 3
      (by decide)
    exact ⟨o, e1, by rw [e2]; decide⟩,
   (C16_remove_all_notifications ((NewEventEmitter 3).On "x" 1).bus "y").2 (by decide) 0⟩

/-- C17: `EventHandler.Remove c` returns true exactly when the record `c` is in
the sequence; on true the sequence `pre ++ c :: post`, with `c` not in `pre`,
becomes `pre ++ post`, and every other record, also one that wraps the same
function, is there as often as before; on false the registry is unchanged. -/
theorem C17_registry_remove_by_identity (handler : EventHandler) (c : EventCallable) :
    ((handler.Remove c).1 = true ↔ c ∈ handler.handlers.values) ∧
    ((handler.Remove c).1 = true →
      ∃ pre post : List EventCallable,
        handler.handlers.values = pre ++ c :: post ∧ c ∉ pre ∧
        (handler.Remove c).2.handlers.values = pre ++ post) ∧
    ((handler.Remove c).1 = false → (handler.Remove c).2 = handler) ∧
    (∀ d, d ≠ c →
      (handler.Remove c).2.handlers.values.count d = handler.handlers.values.count d) := by
  obtain ⟨r1, r2, _⟩ := EventHandler.Remove_spec handler c
  refine ⟨by simp [r1], ?_, EventHandler.Remove_false handler c, ?_⟩
  · intro h
    have hmem : c ∈ handler.handlers.values := by simpa [r1] using h
    obtain ⟨pre, post, h1, h2, h3⟩ := List.exists_erase_eq hmem
    exact ⟨pre, post, h2, h1, by rw [r2, h3]⟩
  · intro d hd
    rw [r2, List.count_erase_of_ne hd]

/-- C17, at a concrete registry: with two records that wrap the function 7
and one that wraps 8, `Remove` of the second record for 7 returns true and
leaves the other two in place; `Remove` of a record for 7 that was never
appended returns false and changes nothing. -/
theorem C17_registry_remove_by_identity_witness :
    ((((EventHandler.new.Append ⟨0, 7, false⟩).Append ⟨1, 8, false⟩).Append
        ⟨2, 7, false⟩).Remove ⟨2, 7, false⟩).1 = true ∧
    ((((EventHandler.new.Append ⟨0, 7, false⟩).Append ⟨1, 8, false⟩).Append
        ⟨2, 7, false⟩).Remove ⟨2, 7, false⟩).2.handlers.values =
      [⟨0, 7, false⟩, ⟨1, 8, false⟩] ∧
    ((((EventHandler.new.Append ⟨0, 7, false⟩).Append ⟨1, 8, false⟩).Append
        ⟨2, 7, false⟩).Remove ⟨5, 7, false⟩).2 =
      ((EventHandler.new.Append ⟨0, 7, false⟩).Append ⟨1, 8, false⟩).Append ⟨2, 7, false⟩ :=
  ⟨(C17_registry_remove_by_identity
      (((EventHandler.new.Append ⟨0, 7, false⟩).Append ⟨1, 8, false⟩).Append ⟨2, 7, false⟩)
      ⟨2, 7, false⟩).1.mpr (by decide),
   by decide,
   (C17_registry_remove_by_identity
      (((EventHandler.new.Append ⟨0, 7, false⟩).Append ⟨1, 8, false⟩).Append ⟨2, 7, false⟩)
      ⟨5, 7, false⟩).2.2.1 (by decide)⟩

/-- C18: with fuel for every callable of a registry holding c1..ck, `Iterate`
with a visitor that removes the callable it is called with returns, has
applied the visitor to c1, .., ck, once each and in this order, and leaves the
sequence empty; with a visitor that leaves the registry alone it has applied
the visitor to c1, .., ck in this order and the registry is unchanged.  The
two visitors that note what they are called with end with the note
c1, .., ck. -/
theorem C18_iterate_tolerates_removal {α : Type}
    (cb : EventCallable → EventHandler × α → EventHandler × α)
    (handler : EventHandler) (a : α) (fuel : Nat)
    (hfuel : handler.GetHandlersCount ≤ fuel) :
    ((∀ c s, (cb c s).1 = (s.1.Remove c).2) →
      EventHandler.Iterate cb fuel (handler, a) =
        some (handler.handlers.values.foldl (fun s c => cb c s) (handler, a)) ∧
      (handler.handlers.values.foldl (fun s c => cb c s)
        (handler, a)).1.handlers.values = []) ∧
    ((∀ c s, (cb c s).1 = s.1) →
      EventHandler.Iterate cb fuel (handler, a) =
        some (handler.handlers.values.foldl (fun s c => cb c s) (handler, a)) ∧
      (handler.handlers.values.foldl (fun s c => cb c s) (handler, a)).1 = handler) ∧
    (∃ emptied : EventHandler,
      EventHandler.Iterate EventHandler.removingVisitor fuel (handler, []) =
        some (emptied, handler.handlers.values) ∧
      emptied.handlers.values = []) ∧
    EventHandler.Iterate EventHandler.notingVisitor fuel (handler, []) =
      some (handler, handler.handlers.values) := by
  refine ⟨?_, ?_, ?_, ?_⟩
  · intro hcb
    obtain ⟨i1, i2⟩ := EventHandler.iterLoop_removing cb hcb handler.handlers.elems
      (handler, a) fuel rfl hfuel
    exact ⟨i1, by simp [GoList.values, i2]⟩
  · intro hcb
    exact EventHandler.iterLoop_keeping cb hcb handler.handlers.elems [] (handler, a) fuel
      rfl hfuel
  · obtain ⟨i1, i2⟩ := EventHandler.iterLoop_removing EventHandler.removingVisitor
      (fun _ _ => rfl) handler.handlers.elems (handler, []) fuel rfl hfuel
    refine ⟨(handler.handlers.values.foldl (fun s c => EventHandler.removingVisitor c s)
      (handler, [])).1, ?_, by simp [GoList.values, i2]⟩
    have h2 := EventHandler.foldl_removingVisitor handler.handlers.values (handler, [])
    simp only [List.nil_append] at h2
    rw [EventHandler.Iterate]
    rw [show (handler, ([] : List EventCallable)).1.handlers.Front =
      handler.handlers.elems.head? from rfl, i1]
    congr 1
    exact Prod.ext rfl h2
  · obtain ⟨i1, i2⟩ := EventHandler.iterLoop_keeping EventHandler.notingVisitor
      (fun _ _ => rfl) handler.handlers.elems [] (handler, []) fuel rfl hfuel
    have h2 := EventHandler.foldl_notingVisitor handler.handlers.values (handler, [])
    simp only [List.nil_append] at h2
    rw [EventHandler.Iterate]
    rw [show (handler, ([] : List EventCallable)).1.handlers.Front =
      handler.handlers.elems.head? from rfl, i1]
    congr 1
    exact Prod.ext i2 h2

/-- C18, at a concrete registry holding the same record twice around another
one: the removing visitor is called with the three callables in order and the
registry ends empty; the noting visitor leaves it as it is. -/
theorem C18_iterate_tolerates_removal_witness :
    (((EventHandler.new.Append ⟨0, 7, false⟩).Append ⟨1, 8, true⟩).Append
        ⟨0, 7, false⟩).GetHandlersCount ≤ 3 ∧
    (EventHandler.Iterate EventHandler.removingVisitor 3
        (((EventHandler.new.Append ⟨0, 7, false⟩).Append ⟨1, 8, true⟩).Append ⟨0, 7, false⟩,
          [])).map (fun s => (s.1.handlers.values, s.2)) =
      some ([], [⟨0, 7, false⟩, ⟨1, 8, true⟩, ⟨0, 7, false⟩]) ∧
    EventHandler.Iterate EventHandler.notingVisitor 3
        (((EventHandler.new.Append ⟨0, 7, false⟩).Append ⟨1, 8, true⟩).Append ⟨0, 7, false⟩,
          []) =
      some (((EventHandler.new.Append ⟨0, 7, false⟩).Append ⟨1, 8, true⟩).Append ⟨0, 7, false⟩,
        [⟨0, 7, false⟩, ⟨1, 8, true⟩, ⟨0, 7, false⟩]) :=
  ⟨by decide, by decide,
   (C18_iterate_tolerates_removal EventHandler.notingVisitor
      (((EventHandler.new.Append ⟨0, 7, false⟩).Append ⟨1, 8, true⟩).Append ⟨0, 7, false⟩)
      [] 3 (by decide)).2.2.2⟩

/-- C19 as stated fails: on a bus of limit 2 where the once listener 1 is
registered for newListener, `Once newListener 2` succeeds, and running the
emission it schedules on the bus it leaves removes both once listeners, so
`ListenerCount newListener` is 0 and not 1, its value before the
subscription. -/
theorem C19_counterexample :
    1 ≤ ((NewEventEmitter 2).Once "newListener" 1).bus.MaxListener ∧
    (((NewEventEmitter 2).Once "newListener" 1).bus.Once "newListener" 2).ret = true ∧
    (((NewEventEmitter 2).Once "newListener" 1).bus.Once "newListener" 2).sched =
      [Task.emit "newListener" [Arg.str "newListener", Arg.fn 2]] ∧
    ((NewEventEmitter 2).Once "newListener" 1).bus.ListenerCount "newListener" = 1 ∧
    (runTask (Task.emit "newListener" [Arg.str "newListener", Arg.fn 2])
      (((NewEventEmitter 2).Once "newListener" 1).bus.Once "newListener"
        2).bus).bus.ListenerCount "newListener" = 0 := by
  decide

/-- C19, amended: a successful subscription of `fn` on the name newListener
schedules the emission of newListener with the arguments newListener and
`fn`; run on the bus the subscription leaves, the emission starts one
invocation for every callable registered for newListener then, the one of
`fn` with these arguments among them; and when `fn` was subscribed with Once
or PrependOnceListener, the callables registered afterwards are those
registered before the subscription that are not flagged once, so
`ListenerCount newListener` is back at its value before the subscription when
none of them was flagged once. -/
theorem C19_newListener_self_dispatch (emitter : EventEmitter) (k : Subscription)
    (fn : EventCallback) (hret : (k.run emitter "newListener" fn).ret = true) :
    (k.run emitter "newListener" fn).sched =
      [Task.emit "newListener" [Arg.str "newListener", Arg.fn fn]] ∧
    (runTask (Task.emit "newListener" [Arg.str "newListener", Arg.fn fn])
        (k.run emitter "newListener" fn).bus).sched =
      ((k.run emitter "newListener" fn).bus.registered "newListener").map
        (fun c => Task.call c.CallableFunc [Arg.str "newListener", Arg.fn fn]) ∧
    Task.call fn [Arg.str "newListener", Arg.fn fn] ∈
      (runTask (Task.emit "newListener" [Arg.str "newListener", Arg.fn fn])
        (k.run emitter "newListener" fn).bus).sched ∧
    ((k = .Once ∨ k = .PrependOnceListener) →
      (runTask (Task.emit "newListener" [Arg.str "newListener", Arg.fn fn])
          (k.run emitter "newListener" fn).bus).bus.registered "newListener" =
        (emitter.registered "newListener").filter (fun c => !c.OnceFlag) ∧
      ((∀ c ∈ emitter.registered "newListener", c.OnceFlag = false) →
        (runTask (Task.emit "newListener" [Arg.str "newListener", Arg.fn fn])
          (k.run emitter "newListener" fn).bus).bus.ListenerCount "newListener" =
        emitter.ListenerCount "newListener")) := by
  have hs := addHandler_spec emitter "newListener" fn k.once k.atEnd
  rw [← Subscription_run_eq] at hs
  obtain ⟨h1, _, h3, h4, _⟩ := hs
  have hlt : emitter.ListenerCount "newListener" < emitter.MaxListener := by
    simpa [h1] using hret
  have hreg := h3 "newListener"
  rw [if_pos ⟨rfl, hlt⟩] at hreg
  obtain ⟨e1, e2, _⟩ := Emit_spec (k.run emitter "newListener" fn).bus "newListener"
    [Arg.str "newListener", Arg.fn fn]
  have e3 := e2 "newListener"
  rw [if_pos rfl] at e3
  refine ⟨by rw [h4, if_pos hlt], e1, ?_, ?_⟩
  · show _ ∈ ((k.run emitter "newListener" fn).bus.Emit "newListener" _).sched
    rw [e1, hreg]
    cases k.atEnd <;> simp
  · intro hk
    have honce : k.once = true := by
      rcases hk with h | h <;> subst h <;> rfl
    have hfil : (runTask (Task.emit "newListener" [Arg.str "newListener", Arg.fn fn])
        (k.run emitter "newListener" fn).bus).bus.registered "newListener" =
        (emitter.registered "newListener").filter (fun c => !c.OnceFlag) := by
      show ((k.run emitter "newListener" fn).bus.Emit "newListener" _).bus.registered _ = _
      rw [e3, hreg, honce]
      cases k.atEnd <;> simp [List.filter_cons]
    refine ⟨hfil, ?_⟩
    intro hall
    rw [ListenerCount_eq, hfil, ListenerCount_eq, List.filter_eq_self.mpr]
    intro c hc
    simp [hall c hc]

/-- C19 amended, at concrete calls: on a bus of limit 2 holding the listener 1
for newListener, `PrependOnceListener newListener 2` succeeds, the emission it
schedules invokes 2 and 1, and afterwards the count is 1 again. -/
theorem C19_newListener_self_dispatch_witness :
    (((NewEventEmitter 2).On "newListener" 1).bus.PrependOnceListener "newListener" 2).ret
      = true ∧
    (runTask (Task.emit "newListener" [Arg.str "newListener", Arg.fn 2])
      (((NewEventEmitter 2).On "newListener" 1).bus.PrependOnceListener "newListener"
        2).bus).sched =
      [Task.call 2 [Arg.str "newListener", Arg.fn 2],
       Task.call 1 [Arg.str "newListener", Arg.fn 2]] ∧
    (runTask (Task.emit "newListener" [Arg.str "newListener", Arg.fn 2])
      (((NewEventEmitter 2).On "newListener" 1).bus.PrependOnceListener "newListener"
        2).bus).bus.ListenerCount "newListener" =
      ((NewEventEmitter 2).On "newListener" 1).bus.ListenerCount "newListener" :=
  ⟨by decide, by decide,
   ((C19_newListener_self_dispatch ((NewEventEmitter 2).On "newListener" 1).bus
      .PrependOnceListener 2 (by decide)).2.2.2 (Or.inr rfl)).2 (by decide)⟩

/-- C20: in every registry reachable from `new(EventHandler)` through Append,
Prepend, Remove, Iterate, FindCallback and Call, `GetEventCount` returns 0. -/
theorem C20_event_count_is_zero (handler : EventHandler)
    (h : EventHandler.RegistryReachable handler) : handler.GetEventCount = 0 := by
  induction h with
  | init => rfl
  | method m _ ih =>
    simp only [EventHandler.GetEventCount] at ih ⊢
    rw [EventHandler.Method_run_eventCount, ih]
  | iterate v fuel s _ hrun ih =>
    simp only [EventHandler.GetEventCount] at ih ⊢
    have := EventHandler.iterLoop_eventCount (EventHandler.methodVisitor v)
      (fun c s => EventHandler.runMethods_eventCount _ _) fuel _ _ s hrun
    rw [this]
    exact ih

/-- C20, at a concrete registry: after two `Append` calls and two `Call`
dispatches the registry is reachable and holds two callables, and
`GetEventCount` is 0. -/
theorem C20_event_count_is_zero_witness :
    EventHandler.RegistryReachable
      ((((EventHandler.new.Append ⟨0, 7, false⟩).Append ⟨1, 8, false⟩).Call [Arg.int 1]).1.Call
        [Arg.int 2]).1 ∧
    ((((EventHandler.new.Append ⟨0, 7, false⟩).Append ⟨1, 8, false⟩).Call [Arg.int 1]).1.Call
        [Arg.int 2]).1.GetEventCount = 0 ∧
    ((((EventHandler.new.Append ⟨0, 7, false⟩).Append ⟨1, 8, false⟩).Call [Arg.int 1]).1.Call
        [Arg.int 2]).1.GetHandlersCount = 2 :=
  ⟨.method (.Call [Arg.int 2]) (.method (.Call [Arg.int 1])
      (.method (.Append ⟨1, 8, false⟩) (.method (.Append ⟨0, 7, false⟩) .init))),
   C20_event_count_is_zero _
    (.method (.Call [Arg.int 2]) (.method (.Call [Arg.int 1])
      (.method (.Append ⟨1, 8, false⟩) (.method (.Append ⟨0, 7, false⟩) .init)))),
   by decide⟩

end GoEventEmitter
